import Mathlib

/-!
# Verification of the pyndfd forecast cache and geospatial lookup engine

Shallow embedding of `src/pyndfd/ndfd.py` (NDFD forecast retrieval routines).

Modelling conventions:
* A UTC instant (`datetime.utcnow()`) is a `Nat` counting microseconds since the
  epoch.  `replace(minute=0, second=0, microsecond=0)` is truncation to the hour,
  `timedelta(hours=1)` is `HOUR_U` microseconds.
* The filesystem is a pair of lists of path strings (existing directories and
  existing files); `os.path.isdir/isfile` are membership tests, `makedirs` adds
  the requested directory, `shutil.rmtree p` removes every path having `p` as a
  string prefix.  `urllib.request.urlretrieve` is parameterised by an oracle
  `fetchOk : String → Bool` telling whether retrieving a URL produces the local
  file; the URLs fetched are recorded in a log.
* The module-level globals `NDFD_LOCAL_SERVER` / `RTMA_LOCAL_SERVER` are a
  `Globals` record threaded explicitly; `setLocalCacheServerNDFD` is a pure
  state update (the source has no setter for the RTMA override).
* The catalog `DEFS` built by `ndfd_defs` is not part of `src/`; per the spec it
  is a read-only table, so catalog-consuming functions take it as an explicit
  association-list parameter (`area ↦ validity period ↦ variable names` for
  `DEFS['vars']`, `area ↦ centroid` for `DEFS['grids']`).
* Python exceptions are values of `PyErr`; a dictionary access on a missing key
  is `KeyError`, which an `except IndexError` clause does not catch.
* `gettempdir() + path.sep + getuser() + '_pyndfd' + path.sep` is modelled by
  the fixed strings `NDFD_TMP` / `RTMA_TMP`, and `strftime('%Y-%m-%d-%H:%M')`
  by rendering the total number of minutes of the timestamp, which preserves
  its characteristic property: it determines and is determined by the
  timestamp at minute resolution.
-/

namespace Pyndfd

/-! ## Wall-clock time (`datetime` values as microseconds since the epoch) -/

def MICRO : Nat := 1000000

def MIN_U : Nat := 60 * MICRO

def HOUR_U : Nat := 60 * MIN_U

/-- `t.minute` of a datetime. -/
def minuteOf (t : Nat) : Nat := t / MIN_U % 60

/-- `t.second` of a datetime. -/
def secondOf (t : Nat) : Nat := t / MICRO % 60

/-- `t.microsecond` of a datetime. -/
def microOf (t : Nat) : Nat := t % MICRO

/-- `t.hour` of a datetime (hour of the day). -/
def hourOfDay (t : Nat) : Nat := t / HOUR_U % 24

/-- `t.replace(minute=0, second=0, microsecond=0)`. -/
def truncToHour (t : Nat) : Nat := t - t % HOUR_U

def CACHE_SERVER_BUFFER_MIN : Nat := 15

/-- `getLatestForecastTime` (ndfd.py lines 105-109): take the current UTC time;
if at most `CACHE_SERVER_BUFFER_MIN` minutes have passed since the top of the
hour, step back one hour; then zero out minutes, seconds and microseconds. -/
def getLatestForecastTime (now : Nat) : Nat :=
  if minuteOf now ≤ CACHE_SERVER_BUFFER_MIN then truncToHour (now - HOUR_U)
  else truncToHour now

/-! ## Strings, paths and the string-prefix order used by `rmtree` -/

/-- `leads p q` holds when the character list `p` is a prefix of `q`. -/
def leads : List Char → List Char → Bool
  | [], _ => true
  | _ :: _, [] => false
  | a :: as, b :: bs => if a = b then leads as bs else false

/-- `strStarts p q` holds when the string `p` is a prefix of the string `q`
(the sense in which `rmtree p` removes a path). -/
def strStarts (p q : String) : Bool := leads p.data q.data

def sep : String := "/"

def NDFD_REMOTE_SERVER : String := "http://tgftp.nws.noaa.gov/SL.us008001/ST.opnl/DF.gr2/"

def RTMA_REMOTE_SERVER : String := NDFD_REMOTE_SERVER

/-- `NDFD_DIR.format(area, vp)`. -/
def ndfdDir (area vp : String) : String :=
  "DC.ndfd" ++ sep ++ "AR." ++ area ++ sep ++ "VP." ++ vp ++ sep

/-- `RTMA_DIR.format(area, rt)`; the analysis-hour slot is an `Int` because the
source fills it with `datetime.utcnow().hour - 1`. -/
def rtmaDir (area : String) (rt : Int) : String :=
  "DC.ndgd" ++ sep ++ "GT.rtma" ++ sep ++ "AR." ++ area ++ sep ++ "RT." ++ toString rt ++ sep

/-- `NDFD_STATIC.format(area)`. -/
def ndfdStatic (area : String) : String :=
  "static" ++ sep ++ "DC.ndfd" ++ sep ++ "AR." ++ area ++ sep

/-- `NDFD_VAR.format(v)`. -/
def ndfdVarFile (v : String) : String := "ds." ++ v ++ ".bin"

/-- `gettempdir() + sep + getuser() + '_pyndfd' + sep` for a fixed user. -/
def NDFD_TMP : String := "/tmp/user_pyndfd/"

/-- `gettempdir() + sep + getuser() + '_pyrtma' + sep` for a fixed user. -/
def RTMA_TMP : String := "/tmp/user_pyrtma/"

/-- `strftime('%Y-%m-%d-%H:%M')`: rendered as the minute count of the
timestamp, which carries the same information as the calendar rendering. -/
def strftimeCycle (t : Nat) : String := toString (t / MIN_U)

/-! ## Filesystem state and the primitives used by the source -/

/-- The filesystem visible to the module: the set of existing directories and
existing regular files, as lists of absolute path strings. -/
structure FS where
  dirs : List String
  files : List String
deriving DecidableEq

/-- `os.path.isdir`. -/
def isdir (s : FS) (p : String) : Bool := decide (p ∈ s.dirs)

/-- `os.path.isfile`. -/
def isfile (s : FS) (p : String) : Bool := decide (p ∈ s.files)

/-- `shutil.rmtree p` (errors ignored, as under the source's bare `except`):
every path under `p` disappears. -/
def rmtree (s : FS) (p : String) : FS :=
  ⟨s.dirs.filter (fun d => ! strStarts p d), s.files.filter (fun f => ! strStarts p f)⟩

/-- `os.makedirs p`: the requested directory comes into existence. -/
def makedirs (s : FS) (p : String) : FS := ⟨p :: s.dirs, s.files⟩

/-- `urllib.request.urlretrieve url dest`: when the oracle grants the URL, the
destination file comes into existence; otherwise nothing is produced. -/
def urlretrieve (fetchOk : String → Bool) (s : FS) (url dest : String) : FS :=
  if fetchOk url then ⟨s.dirs, dest :: s.files⟩ else s

/-! ## Python errors and module globals -/

/-- The Python exceptions the embedded code can raise.  A dictionary access on
a missing key raises `keyError`; `valueError` and `runtimeError` carry their
message; `nameError` stands for the use of an unbound local variable. -/
inductive PyErr where
  | keyError : PyErr
  | valueError : String → PyErr
  | runtimeError : String → PyErr
  | nameError : PyErr
  | indexError : PyErr
deriving DecidableEq

/-- The module-level mutable globals `NDFD_LOCAL_SERVER` / `RTMA_LOCAL_SERVER`. -/
structure Globals where
  ndfdLocalServer : Option String
  rtmaLocalServer : Option String
deriving DecidableEq

/-- Module initialisation: both override servers start as `None`. -/
def initGlobals : Globals := ⟨none, none⟩

/-- `setLocalCacheServerNDFD` (ndfd.py lines 93-95): sets only
`NDFD_LOCAL_SERVER`; the source has no setter for `RTMA_LOCAL_SERVER`. -/
def setLocalCacheServerNDFD (uri : String) (g : Globals) : Globals :=
  { g with ndfdLocalServer := some uri }

/-- The shape of `DEFS['vars']`: an insertion-ordered dictionary from area to
an insertion-ordered dictionary from validity period to variable names. -/
abbrev VarsCatalog := List (String × List (String × List String))

/-- Python dictionary lookup `d[k]` (first binding of the key wins; a Python
dict has unique keys). -/
def dictGet {α : Type} (k : String) : List (String × α) → Option α
  | [] => none
  | (a, v) :: rest => if a = k then some v else dictGet k rest

/-! ## `getVariable` (ndfd.py lines 122-166) -/

def fetchFailMsg : String :=
  "Cannot retrieve NDFD variables at this time. Try again in a moment."

deriving instance DecidableEq for Except

/-- Result of a call that mutates the filesystem: the returned value or raised
exception, the filesystem afterwards, and the URLs fetched (in order). -/
structure VarResult where
  out : Except PyErr (List String)
  fs : FS
  log : List String
deriving DecidableEq

/-- The per-validity-period variable directory: the two `if source==...:`
assignments of ndfd.py lines 144-147. -/
def varDirFor (source area : String) (rtHour : Int) (vp : String) : String :=
  if source = "NDFD" then ndfdDir area vp else rtmaDir area rtHour

/-- `localDir = dirTime + varDir` (ndfd.py line 149). -/
def localDirOf (source area dirTime : String) (rtHour : Int) (vp : String) : String :=
  dirTime ++ varDirFor source area rtHour vp

/-- `localVar = dirTime + varName` with `varName = varDir + NDFD_VAR.format(var)`
(ndfd.py lines 148, 150). -/
def localVarOf (source area var dirTime : String) (rtHour : Int) (vp : String) : String :=
  dirTime ++ (varDirFor source area rtHour vp ++ ndfdVarFile var)

/-- `remoteVar = (LOCAL_SERVER or REMOTE_SERVER) + varName` (ndfd.py
lines 154-158). -/
def fetchUrlOf (localServer : Option String) (remoteServer source area var : String)
    (rtHour : Int) (vp : String) : String :=
  (match localServer with | some u => u | none => remoteServer) ++
    (varDirFor source area rtHour vp ++ ndfdVarFile var)

/-- The `for vp in DEFS['vars'][area]` loop of ndfd.py lines 142-162. -/
def getVarLoop (fetchOk : String → Bool) (localServer : Option String)
    (remoteServer source area var dirTime : String) (rtHour : Int) :
    List (String × List String) → FS → List String → List String → VarResult
  | [], s, log, gribs => ⟨.ok gribs, s, log⟩
  | (vp, vars) :: rest, s, log, gribs =>
    if var ∈ vars then
      let localDir := localDirOf source area dirTime rtHour vp
      let localVar := localVarOf source area var dirTime rtHour vp
      let url := fetchUrlOf localServer remoteServer source area var rtHour vp
      let s1 := if isdir s localDir then s else makedirs s localDir
      if isfile s1 localVar then
        getVarLoop fetchOk localServer remoteServer source area var dirTime rtHour rest
          s1 log (gribs ++ [localVar])
      else
        let s2 := urlretrieve fetchOk s1 url localVar
        if isfile s2 localVar then
          getVarLoop fetchOk localServer remoteServer source area var dirTime rtHour rest
            s2 (log ++ [url]) (gribs ++ [localVar])
        else ⟨.error (.runtimeError fetchFailMsg), s2, log ++ [url]⟩
    else
      getVarLoop fetchOk localServer remoteServer source area var dirTime rtHour rest s log gribs

/-- `TMP_DIR` selected by the `source` branch of ndfd.py lines 125-134. -/
def tmpOf (source : String) : String := if source = "NDFD" then NDFD_TMP else RTMA_TMP

/-- `LOCAL_SERVER` selected by the `source` branch. -/
def localServerOf (g : Globals) (source : String) : Option String :=
  if source = "NDFD" then g.ndfdLocalServer else g.rtmaLocalServer

/-- `REMOTE_SERVER` selected by the `source` branch. -/
def remoteServerOf (source : String) : String :=
  if source = "NDFD" then NDFD_REMOTE_SERVER else RTMA_REMOTE_SERVER

/-- `dirTime` of ndfd.py line 136: the per-cycle cache root. -/
def dirTimeOf (source : String) (now : Nat) : String :=
  tmpOf source ++ strftimeCycle (getLatestForecastTime now) ++ sep

/-- `getVariable` (ndfd.py lines 122-166), at the wall-clock instant `now`.
A `source` other than `'NDFD'`/`'RTMA'` leaves `TMP_DIR` unbound and the
function dies with a `NameError` at line 136. -/
def getVariable (g : Globals) (cat : VarsCatalog) (fetchOk : String → Bool) (now : Nat)
    (var area source : String) (s : FS) : VarResult :=
  if source = "NDFD" ∨ source = "RTMA" then
    let dirTime := dirTimeOf source now
    let s1 := if isdir s dirTime then s else makedirs (rmtree s (tmpOf source)) dirTime
    match dictGet area cat with
    | some vps =>
        getVarLoop fetchOk (localServerOf g source) (remoteServerOf source) source area var
          dirTime ((hourOfDay now : Int) - 1) vps s1 [] []
    | none => ⟨.error (.valueError ("Invalid Area: " ++ area)), s1, []⟩
  else ⟨.error .nameError, s, []⟩

/-! ## `getElevationVariable` (ndfd.py lines 184-200) -/

def elevPuertoriMsg : String :=
  "Elevation currently not available for Puerto Rico. Set elev=False"

def elevServerMsg : String :=
  "Local cache server must provide elevation data. Specify cache server with ndfd.setLocalCacheServer(uri)"

/-- Result of the elevation path: one local path instead of a list. -/
structure ElevResult where
  out : Except PyErr String
  fs : FS
  log : List String
deriving DecidableEq

/-- `localDir = NDFD_TMP + NDFD_STATIC.format(area)` (ndfd.py line 192). -/
def elevLocalDir (area : String) : String := NDFD_TMP ++ ndfdStatic area

/-- `localVar = localDir + NDFD_VAR.format('elev')` (ndfd.py line 193). -/
def elevLocalVar (area : String) : String := elevLocalDir area ++ ndfdVarFile "elev"

/-- `remoteVar = NDFD_LOCAL_SERVER + NDFD_STATIC.format(area) +
NDFD_VAR.format('elev')` (ndfd.py line 191). -/
def elevRemoteVar (srv area : String) : String :=
  srv ++ ndfdStatic area ++ ndfdVarFile "elev"

/-- The fetch-and-check tail of `getElevationVariable` (ndfd.py lines
196-200), run from the state `s2` in which both directories exist.  When the
file already exists no fetch happens and the existence re-check passes
trivially; otherwise one `urlretrieve` is attempted and the result re-checked. -/
def elevCore (fetchOk : String → Bool) (srv area : String) (s2 : FS) : ElevResult :=
  if isfile s2 (elevLocalVar area) then ⟨.ok (elevLocalVar area), s2, []⟩
  else
    let s3 := urlretrieve fetchOk s2 (elevRemoteVar srv area) (elevLocalVar area)
    if isfile s3 (elevLocalVar area) then
      ⟨.ok (elevLocalVar area), s3, [elevRemoteVar srv area]⟩
    else ⟨.error (.runtimeError fetchFailMsg), s3, [elevRemoteVar srv area]⟩

/-- `getElevationVariable` (ndfd.py lines 184-200). -/
def getElevationVariable (g : Globals) (fetchOk : String → Bool) (area : String)
    (s : FS) : ElevResult :=
  if area = "puertori" then ⟨.error (.valueError elevPuertoriMsg), s, []⟩
  else
    match g.ndfdLocalServer with
    | none => ⟨.error (.runtimeError elevServerMsg), s, []⟩
    | some srv =>
      let s1 := if isdir s NDFD_TMP then s else makedirs s NDFD_TMP
      elevCore fetchOk srv area
        (if isdir s1 (elevLocalDir area) then s1 else makedirs s1 (elevLocalDir area))

/-! ## `validateArguments` (ndfd.py lines 261-280) -/

/-- `validateArguments` (ndfd.py lines 261-280).  The `try/except IndexError`
around `DEFS['vars'][area]` does not catch the `KeyError` a dict raises for a
missing key, so an unknown area surfaces as an uncaught `KeyError`. -/
def beforeCycle (o : Option Nat) (cycle : Nat) : Bool :=
  match o with
  | some m => decide (m < cycle)
  | none => false

def validateArguments (cat : VarsCatalog) (now : Nat) (var area : String)
    (timeStep : Int) (minTime maxTime : Option Nat) : Except PyErr Unit :=
  if timeStep < 1 then .error (.valueError "timeStep must be >= 1")
  else if beforeCycle minTime (getLatestForecastTime now) then
    .error (.valueError "minTime is before the current forecast time.")
  else if beforeCycle maxTime (getLatestForecastTime now) then
    .error (.valueError "maxTime is before the current forecast time.")
  else
    match dictGet area cat with
    | none => .error .keyError
    | some areaVP =>
      if areaVP.any (fun pv => var ∈ pv.2) then .ok ()
      else .error (.valueError ("Variable not available in area: " ++ area))

/-! ## Small concrete data used by several evaluations -/

/-- A one-area, one-period catalog in the shape of `DEFS['vars']`. -/
def demoCat : VarsCatalog := [("conus", [("001-003", ["temp"])])]

/-! ## Behaviour of the `getVariable` fetch loop -/

/-- The list of local paths the loop appends to `gribs`: one per validity
period that publishes the variable, in catalog order. -/
def loopPaths (source area var dirTime : String) (rtHour : Int)
    (vps : List (String × List String)) : List String :=
  vps.filterMap fun pv =>
    if var ∈ pv.2 then some (localVarOf source area var dirTime rtHour pv.1) else none

/-! ## C8: server selection -/

/-- The base every fetch URL of the given source starts with: the configured
override for that source when present, otherwise the public remote archive. -/
def serverBase (g : Globals) (source : String) : String :=
  match localServerOf g source with
  | some u => u
  | none => remoteServerOf source

/-! ## Concrete instants and evaluations for witnesses and counterexamples -/

/-- 10:20 UTC (day 0): minute 20 > 15, cycle 10:00, wall hour 10. -/
def nowA : Nat := 10 * HOUR_U + 20 * MIN_U

/-- 11:05 UTC (day 0): minute 5 ≤ 15, cycle 10:00, wall hour 11. -/
def nowB : Nat := 11 * HOUR_U + 5 * MIN_U

/-- hour 100 plus 20 minutes: minute 20 > 15, cycle hour 100, wall hour 4. -/
def now820 : Nat := 100 * HOUR_U + 20 * MIN_U

/-- 00:10 UTC of day 2: minute 10 ≤ 15, so the cycle is 23:00 of day 1, while
the wall-clock hour is 0. -/
def nowH0 : Nat := 24 * HOUR_U + 10 * MIN_U

/-- The cached local path of the witness run for C2. -/
def cachedVarPath : String :=
  localVarOf "NDFD" "conus" "temp" (dirTimeOf "NDFD" now820) 3 "001-003"

/-- The filesystem after the witness's first `getVariable` call for C2. -/
def cachedFS : FS :=
  ⟨[localDirOf "NDFD" "conus" (dirTimeOf "NDFD" now820) 3 "001-003",
    dirTimeOf "NDFD" now820], [cachedVarPath]⟩

/-- A filesystem holding a stale cycle directory `999` and one cached file
under it, used by the C3 witness. -/
def staleFS : FS :=
  ⟨[NDFD_TMP ++ "999" ++ sep],
    [NDFD_TMP ++ "999" ++ sep ++ "ds.temp.bin"]⟩

/-! ## `getSmallestGrid` (ndfd.py lines 212-225)

The query point `(lat, lon)` is fixed, so the pyproj geodesic inverse
`G.inv(lon, lat, lonC, latC)[-1]` (an external library) is a function `d`
of the tile centroid alone, taken as a parameter; `DEFS['grids']` is the
insertion-ordered association list of tile names and centroids. -/

abbrev Centroid := ℚ × ℚ

/-- The three coarse fallback tiles skipped by the loop (ndfd.py line 216). -/
def excludedGrid (a : String) : Bool := a = "conus" || a = "nhemi" || a = "npacocn"

/-- The `for area in DEFS['grids'].keys()` loop of ndfd.py lines 215-223,
carrying `smallest` and `minDist`; the strict comparison `dist < minDist`
drives the update (the unused `smallArea` lookup of line 219 is pure and
dropped). -/
def smallestLoop (d : Centroid → ℚ) : List (String × Centroid) → String → ℚ → String
  | [], smallest, _ => smallest
  | (a, c) :: rest, smallest, minDist =>
    if excludedGrid a then smallestLoop d rest smallest minDist
    else if d c < minDist then smallestLoop d rest a (d c)
    else smallestLoop d rest smallest minDist

/-- `getSmallestGrid` (ndfd.py lines 212-225): seeded with `smallest='neast'`
and its centroid distance; a catalog without `'neast'` would raise `KeyError`
at line 214. -/
def getSmallestGrid (grids : List (String × Centroid)) (d : Centroid → ℚ) :
    Except PyErr String :=
  match dictGet "neast" grids with
  | none => .error .keyError
  | some c0 => .ok (smallestLoop d grids "neast" (d c0))

/-- The running minimum the loop maintains, as a value. -/
def loopMin (d : Centroid → ℚ) (m : ℚ) : List (String × Centroid) → ℚ
  | [] => m
  | (a, c) :: rest =>
    if excludedGrid a then loopMin d m rest else loopMin d (min m (d c)) rest

/-- The first non-excluded tile in catalog order whose centroid distance
equals `m`. -/
def firstAtMin (d : Centroid → ℚ) (m : ℚ) : List (String × Centroid) → Option String
  | [] => none
  | (a, c) :: rest =>
    if excludedGrid a = false ∧ d c = m then some a else firstAtMin d m rest

/-- What C5 (amended) asserts of `getSmallestGrid grids d` given that
`'neast'` carries centroid `c0`: a non-excluded tile of the catalog is
returned whose centroid distance is the overall minimum over all non-excluded
tiles; on an exact tie the seed `'neast'` wins whenever it attains the
minimum, and otherwise the first non-excluded tile in catalog order attaining
the minimum wins; and a query sitting exactly at a non-excluded tile's
centroid (distance 0, every other non-excluded tile strictly farther) returns
that tile. -/
def smallestGridClaim (grids : List (String × Centroid)) (d : Centroid → ℚ)
    (c0 : Centroid) : Prop :=
  ∃ r cr, getSmallestGrid grids d = .ok r ∧
    excludedGrid r = false ∧
    (r, cr) ∈ grids ∧
    d cr = loopMin d (d c0) grids ∧
    (∀ pv ∈ grids, excludedGrid pv.1 = false → d cr ≤ d pv.2) ∧
    (loopMin d (d c0) grids = d c0 → r = "neast") ∧
    (loopMin d (d c0) grids ≠ d c0 →
      firstAtMin d (loopMin d (d c0) grids) grids = some r) ∧
    (∀ t ct, (t, ct) ∈ grids → excludedGrid t = false → d ct = 0 →
      (∀ pv ∈ grids, excludedGrid pv.1 = false → pv ≠ (t, ct) → 0 < d pv.2) → r = t)

/-- A two-tile catalog in which the non-excluded tile `alaska` precedes
`neast` and all centroid distances are equal. -/
def tieGrids : List (String × Centroid) := [("alaska", (0, 0)), ("neast", (5, 5))]

/-- A three-tile catalog for the C5 witness: `conus` is excluded; among the
others `pacsw` is strictly nearest. -/
def demoGrids : List (String × Centroid) := [("conus", (0, 0)), ("neast", (3, 3)), ("pacsw", (1, 1))]

/-! ## `getNearestXrGridPoint` (ndfd.py lines 238-245)

The xarray coordinate arrays `latitude`/`longitude` are 2D grids of exact
rationals here; `dist = (lats - lat)**2 + (lons - lon)**2` is computed
elementwise, `dist.min()` is the minimum over all cells, and
`np.where(dist == dist.min())` returns all tied cell indices in row-major
order as `(idy, idx)` pairs — `(i, j)` below, `i` the row. -/

/-- Elementwise `(lats - lat)**2 + (lons - lon)**2` (ndfd.py line 241). -/
def distGrid (lats lons : List (List ℚ)) (lat lon : ℚ) : List (List ℚ) :=
  List.zipWith (fun rla rlo =>
    List.zipWith (fun a b => (a - lat) ^ 2 + (b - lon) ^ 2) rla rlo) lats lons

/-- `arr.min()` of a (flattened) numpy array: `none` on an empty array. -/
def listMinQ : List ℚ → Option ℚ
  | [] => none
  | x :: xs => some (xs.foldl min x)

/-- One row of `np.where(dist == m)`: the column indices holding `m`, offset
by the running column index. -/
def whereRow (m : ℚ) (i : Nat) : Nat → List ℚ → List (Nat × Nat)
  | _, [] => []
  | j, v :: rest => (if v = m then [(i, j)] else []) ++ whereRow m i (j + 1) rest

/-- `np.where(dist == m)` over the whole grid, row-major. -/
def whereGrid (m : ℚ) : Nat → List (List ℚ) → List (Nat × Nat)
  | _, [] => []
  | i, row :: rows => whereRow m i 0 row ++ whereGrid m (i + 1) rows

/-- The indexed cell access `g[i][j]` of a 2D array. -/
def cell (g : List (List ℚ)) (i j : Nat) : Option ℚ :=
  (g[i]?).bind fun r => r[j]?

/-- `getNearestXrGridPoint` (ndfd.py lines 238-245), returning the row-major
`(i, j)` index pairs of `np.where(dist == dist.min())` (the grid coordinates
`gLat`, `gLon` the source also returns are the coordinate entries at those
indices). -/
def getNearestXrGridPoint (lats lons : List (List ℚ)) (lat lon : ℚ) :
    List (Nat × Nat) :=
  match listMinQ (distGrid lats lons lat lon).flatten with
  | none => []
  | some m => whereGrid m 0 (distGrid lats lons lat lon)

/-- The latitude rows of the claim's 2×2 example grid. -/
def lats2 : List (List ℚ) := [[0, 0], [1, 1]]

/-- The longitude rows of the claim's 2×2 example grid. -/
def lons2 : List (List ℚ) := [[0, 1], [0, 1]]

/-! ## `getLocationData` (ndfd.py lines 287-348)

The xarray decoding (`xr.open_dataset`, `getNearestXrGridPoint`, `isel`) is
the external grid decoder; it is modelled by oracles `decodeR`/`decodeN`
mapping a cached grib path to the dataset already restricted to the resolved
grid point: an RTMA dataset holds one valid time and one scalar per data
variable, an NDFD dataset holds the step-axis valid times and one value list
per data variable.  Python's insertion-ordered dictionaries are association
lists with `pyDictSet` as `d[k] = v` and `pyDictMerge` as `{**a, **b}`. -/

/-- An RTMA dataset at the selected grid point. -/
structure RtmaDS where
  time : Nat
  vars : List (String × ℚ)
deriving DecidableEq

/-- An NDFD dataset at the selected grid point. -/
structure NdfdDS where
  times : List Nat
  vars : List (String × List ℚ)
deriving DecidableEq

/-- Python dict assignment `d[k] = v`: replaces in place, else appends. -/
def pyDictSet {κ α : Type} [DecidableEq κ] (d : List (κ × α)) (k : κ) (v : α) :
    List (κ × α) :=
  if d.any (fun kv => decide (kv.1 = k)) then
    d.map (fun kv => if kv.1 = k then (k, v) else kv)
  else d ++ [(k, v)]

/-- Python dict merge `{**a, **b}`. -/
def pyDictMerge (a b : List (Nat × ℚ)) : List (Nat × ℚ) :=
  b.foldl (fun acc tv => pyDictSet acc tv.1 tv.2) a

def ltOpt (t : Nat) (o : Option Nat) : Bool :=
  match o with
  | some m => decide (t < m)
  | none => false

def gtOpt (t : Nat) (o : Option Nat) : Bool :=
  match o with
  | some m => decide (m < t)
  | none => false

/-- The `for hour in range(0, 250, timeStep)` window enumeration of ndfd.py
lines 303-310: `t = forecastTime - hours(forecastTime.hour) + hours(hour)`,
skipped below `minTime` (`continue`), cut at `maxTime` (`break`). -/
def buildValidTimes (forecastTime : Nat) (minTime maxTime : Option Nat) :
    List Nat → List Nat
  | [] => []
  | h :: rest =>
    let t := forecastTime - HOUR_U * hourOfDay forecastTime + HOUR_U * h
    if ltOpt t minTime then buildValidTimes forecastTime minTime maxTime rest
    else if gtOpt t maxTime then []
    else t :: buildValidTimes forecastTime minTime maxTime rest

/-- The RTMA loop of ndfd.py lines 316-328: for each dataset, each data
variable's series is overwritten with the singleton `{time: value}`; the loop
variable `variable` survives the loop (it is read by the NDFD loop below). -/
def rtmaPhase : List RtmaDS → List (String × List (Nat × ℚ)) → Option String →
    List (String × List (Nat × ℚ)) × Option String
  | [], an, lastVar => (an, lastVar)
  | ds :: rest, an, lastVar =>
    let step := ds.vars.foldl
      (fun (acc : List (String × List (Nat × ℚ)) × Option String) nv =>
        (pyDictSet acc.1 nv.1 [(ds.time, nv.2)], some nv.1))
      (an, lastVar)
    rtmaPhase rest step.1 step.2

/-- The inner step loop of ndfd.py lines 341-344: `varData[times[i]] =
float(tmp.variables[variable][i,0,0])` for `i in range(dims['step'])`; an
out-of-range index raises `IndexError`. -/
def ndfdSteps (vals : List ℚ) (times : List Nat) :
    List Nat → List (Nat × ℚ) → Except PyErr (List (Nat × ℚ))
  | [], vd => .ok vd
  | i :: is, vd =>
    match times[i]?, vals[i]? with
    | some t, some v => ndfdSteps vals times is (pyDictSet vd t v)
    | _, _ => .error .indexError

/-- The `for variables in tmp.data_vars` loop of ndfd.py lines 339-344.  Its
body reads the STALE `variable` bound by the RTMA loop (`lastVar`), not the
loop's own `variables`, so every iteration rebuilds the same `varData`; when
the dataset has no data variables, `varData` keeps whatever value it had
(`lastVarData`), and using it while still unbound is a `NameError`. -/
def ndfdOne (ds : NdfdDS) (lastVar : Option String)
    (lastVarData : Option (List (Nat × ℚ))) :
    Except PyErr (Option (List (Nat × ℚ))) :=
  ds.vars.foldl
    (fun acc _ =>
      match acc with
      | .error e => .error e
      | .ok _ =>
        match lastVar with
        | none => .error .nameError
        | some lv =>
          match dictGet lv ds.vars with
          | none => .error .keyError
          | some vals =>
            match ndfdSteps vals ds.times (List.range ds.times.length) [] with
            | .error e => .error e
            | .ok vd => .ok (some vd))
    (.ok lastVarData)

/-- The NDFD loop of ndfd.py lines 331-346: per dataset, the (stale-named)
series merge `analysis['variables'][variable] = {**analysis['variables']
[variable], **varData}` sits one level outside the data-variable loop. -/
def ndfdPhase : List NdfdDS → List (String × List (Nat × ℚ)) → Option String →
    Option (List (Nat × ℚ)) → Except PyErr (List (String × List (Nat × ℚ)))
  | [], an, _, _ => .ok an
  | ds :: rest, an, lastVar, lastVarData =>
    match ndfdOne ds lastVar lastVarData with
    | .error e => .error e
    | .ok vdOpt =>
      match lastVar, vdOpt with
      | none, _ => .error .nameError
      | some _, none => .error .nameError
      | some lv, some vd =>
        match dictGet lv an with
        | none => .error .keyError
        | some old => ndfdPhase rest (pyDictSet an lv (pyDictMerge old vd)) lastVar (some vd)

/-- `getLocationData` (ndfd.py lines 287-348), with `area` supplied (when it
is `None` the source first calls `getSmallestGrid`) and the `elev` parameter
dropped (the source never reads it).  Note that `validTimes` (lines 301-310)
is computed and then never used: the returned series carries the datasets'
native valid times, unrestricted by `minTime`/`maxTime`/`timeStep`. -/
def getLocationData (g : Globals) (cat : VarsCatalog) (fetchOk : String → Bool)
    (now : Nat) (decodeR : String → RtmaDS) (decodeN : String → NdfdDS)
    (var area : String) (timeStep : Int) (minTime maxTime : Option Nat) (s : FS) :
    Except PyErr (List (String × List (Nat × ℚ)) × FS) :=
  match validateArguments cat now var area timeStep minTime maxTime with
  | .error e => .error e
  | .ok _ =>
    let forecastTime := getLatestForecastTime now
    let _validTimes := buildValidTimes forecastTime minTime maxTime
      ((List.range 250).filter (fun h => decide (h % timeStep.toNat = 0)))
    let rR := getVariable g cat fetchOk now var area "RTMA" s
    match rR.out with
    | .error e => .error e
    | .ok varRTMA =>
      let rN := getVariable g cat fetchOk now var area "NDFD" rR.fs
      match rN.out with
      | .error e => .error e
      | .ok varNDFD =>
        let phase1 := rtmaPhase (varRTMA.map decodeR) [] none
        match ndfdPhase (varNDFD.map decodeN) phase1.1 phase1.2 none with
        | .error e => .error e
        | .ok series => .ok (series, rN.fs)

/-! ### Arithmetic helper lemmas about hour truncation -/

theorem truncToHour_eq_mul (t : Nat) : truncToHour t = HOUR_U * (t / HOUR_U) := by
  have h := Nat.div_add_mod t HOUR_U
  unfold truncToHour
  omega

theorem minuteOf_truncToHour (t : Nat) : minuteOf (truncToHour t) = 0 := by
  rw [truncToHour_eq_mul]
  unfold minuteOf HOUR_U MIN_U MICRO
  have h : 60 * (60 * 1000000) * (t / (60 * (60 * 1000000))) / (60 * 1000000)
      = 60 * (t / (60 * (60 * 1000000))) := by
    rw [Nat.mul_comm 60 (60 * 1000000), Nat.mul_assoc]
    exact Nat.mul_div_cancel_left _ (by norm_num)
  rw [h]
  exact Nat.mul_mod_right 60 _

theorem secondOf_truncToHour (t : Nat) : secondOf (truncToHour t) = 0 := by
  rw [truncToHour_eq_mul]
  unfold secondOf HOUR_U MIN_U MICRO
  have h : 60 * (60 * 1000000) * (t / (60 * (60 * 1000000))) / 1000000
      = 3600 * (t / (60 * (60 * 1000000))) := by
    have : (60 : Nat) * (60 * 1000000) = 1000000 * 3600 := by norm_num
    rw [this, Nat.mul_assoc]
    exact Nat.mul_div_cancel_left _ (by norm_num)
  rw [h]
  have h2 : (3600 : Nat) = 60 * 60 := by norm_num
  rw [h2, Nat.mul_assoc]
  exact Nat.mul_mod_right 60 _

theorem microOf_truncToHour (t : Nat) : microOf (truncToHour t) = 0 := by
  rw [truncToHour_eq_mul]
  unfold microOf HOUR_U MIN_U MICRO
  have h : (60 : Nat) * (60 * 1000000) = 1000000 * 3600 := by norm_num
  rw [h, Nat.mul_assoc]
  exact Nat.mul_mod_right 1000000 _

/-- C1: For every wall-clock UTC time `t` (at least one hour after the epoch,
so that "minus one hour" is genuine), `getLatestForecastTime` returns `t`
truncated to the hour when `t.minute > 15`, and `(t − 1 hour)` truncated to the
hour when `t.minute ≤ 15`; in both cases the minute, second and microsecond
components of the result are all zero. -/
theorem getLatestForecastTime_spec (now : Nat) (_h : HOUR_U ≤ now) :
    (15 < minuteOf now → getLatestForecastTime now = truncToHour now) ∧
    (minuteOf now ≤ 15 → getLatestForecastTime now = truncToHour (now - HOUR_U)) ∧
    minuteOf (getLatestForecastTime now) = 0 ∧
    secondOf (getLatestForecastTime now) = 0 ∧
    microOf (getLatestForecastTime now) = 0 := by
  by_cases hm : minuteOf now ≤ 15
  · have he : getLatestForecastTime now = truncToHour (now - HOUR_U) := by
      unfold getLatestForecastTime CACHE_SERVER_BUFFER_MIN
      rw [if_pos hm]
    rw [he]
    refine ⟨fun hlt => absurd hm (by omega), fun _ => rfl, ?_, ?_, ?_⟩
    · exact minuteOf_truncToHour _
    · exact secondOf_truncToHour _
    · exact microOf_truncToHour _
  · have he : getLatestForecastTime now = truncToHour now := by
      unfold getLatestForecastTime CACHE_SERVER_BUFFER_MIN
      rw [if_neg hm]
    rw [he]
    refine ⟨fun _ => rfl, fun hle => absurd hle hm, ?_, ?_, ?_⟩
    · exact minuteOf_truncToHour _
    · exact secondOf_truncToHour _
    · exact microOf_truncToHour _

/-- Witness for C1: evaluation at the concrete instant `100` hours plus `20`
minutes after the epoch (minute component `20 > 15`), and at `100` hours plus
`5` minutes (minute component `5 ≤ 15`). -/
theorem getLatestForecastTime_spec_witness :
    (HOUR_U ≤ 100 * HOUR_U + 20 * MIN_U ∧
      (15 < minuteOf (100 * HOUR_U + 20 * MIN_U) →
        getLatestForecastTime (100 * HOUR_U + 20 * MIN_U) =
          truncToHour (100 * HOUR_U + 20 * MIN_U)) ∧
      (minuteOf (100 * HOUR_U + 20 * MIN_U) ≤ 15 →
        getLatestForecastTime (100 * HOUR_U + 20 * MIN_U) =
          truncToHour (100 * HOUR_U + 20 * MIN_U - HOUR_U)) ∧
      minuteOf (getLatestForecastTime (100 * HOUR_U + 20 * MIN_U)) = 0 ∧
      secondOf (getLatestForecastTime (100 * HOUR_U + 20 * MIN_U)) = 0 ∧
      microOf (getLatestForecastTime (100 * HOUR_U + 20 * MIN_U)) = 0) ∧
    getLatestForecastTime (100 * HOUR_U + 20 * MIN_U) = 100 * HOUR_U ∧
    getLatestForecastTime (100 * HOUR_U + 5 * MIN_U) = 99 * HOUR_U :=
  ⟨⟨by decide, getLatestForecastTime_spec (100 * HOUR_U + 20 * MIN_U) (by decide)⟩,
    by decide, by decide⟩

/-- C4: the claim asserts that an unknown tile raises an `InvalidArgument`
(`ValueError`) before any network call.  Evaluating `validateArguments` at the
unknown area `'nowhere'` instead yields an uncaught `KeyError`: the dict access
`DEFS['vars'][area]` raises `KeyError`, which the source's `except IndexError`
clause does not catch.  The variable-absent half of the claim does behave as
stated: a known area with an unpublished variable yields the `ValueError`. -/
theorem validateArguments_unknownArea_keyError :
    validateArguments demoCat 0 "temp" "nowhere" 1 none none = .error PyErr.keyError ∧
    (∀ msg, (Except.error PyErr.keyError : Except PyErr Unit) ≠ .error (.valueError msg)) ∧
    validateArguments demoCat 0 "wind" "conus" 1 none none =
      .error (.valueError ("Variable not available in area: " ++ "conus")) := by
  refine ⟨by decide, ?_, by decide⟩
  intro msg h
  exact PyErr.noConfusion (Except.error.inj h)

/-! ## C9: the elevation retrieval path -/

theorem elevCore_spec (fetchOk : String → Bool) (srv area : String) (s2 : FS) :
    (∀ url ∈ (elevCore fetchOk srv area s2).log, ∃ rest, url = srv ++ rest) ∧
    (elevCore fetchOk srv area s2).log.length ≤ 1 ∧
    (isfile (elevCore fetchOk srv area s2).fs (elevLocalVar area) = false →
      (elevCore fetchOk srv area s2).out = .error (.runtimeError fetchFailMsg)) := by
  unfold elevCore
  by_cases h2 : isfile s2 (elevLocalVar area) = true
  · rw [if_pos h2]
    refine ⟨by intro url hurl; simp at hurl, by simp, ?_⟩
    intro hno
    simp only at hno
    rw [h2] at hno
    cases hno
  · rw [if_neg h2]
    simp only []
    by_cases h3 :
      isfile (urlretrieve fetchOk s2 (elevRemoteVar srv area) (elevLocalVar area))
        (elevLocalVar area) = true
    · rw [if_pos h3]
      refine ⟨?_, by simp, ?_⟩
      · intro url hurl
        simp only [List.mem_singleton] at hurl
        exact ⟨ndfdStatic area ++ ndfdVarFile "elev",
          by rw [hurl]; unfold elevRemoteVar; rw [String.append_assoc]⟩
      · intro hno
        simp only at hno
        rw [h3] at hno
        cases hno
    · rw [if_neg h3]
      refine ⟨?_, by simp, fun _ => rfl⟩
      intro url hurl
      simp only [List.mem_singleton] at hurl
      exact ⟨ndfdStatic area ++ ndfdVarFile "elev",
        by rw [hurl]; unfold elevRemoteVar; rw [String.append_assoc]⟩

/-- C9: `getElevationVariable` raises an error without attempting any fetch if
the tile is `'puertori'` or if no override server is configured; otherwise any
fetch it performs (there is at most one) goes to the override server, and if
after the (single) attempt no readable local file exists it raises the
fetch-failure `RuntimeError`. -/
theorem getElevationVariable_spec (g : Globals) (fetchOk : String → Bool)
    (area : String) (s : FS) :
    (area = "puertori" →
      getElevationVariable g fetchOk area s = ⟨.error (.valueError elevPuertoriMsg), s, []⟩) ∧
    (area ≠ "puertori" → g.ndfdLocalServer = none →
      getElevationVariable g fetchOk area s = ⟨.error (.runtimeError elevServerMsg), s, []⟩) ∧
    (∀ u, area ≠ "puertori" → g.ndfdLocalServer = some u →
      (∀ url ∈ (getElevationVariable g fetchOk area s).log, ∃ rest, url = u ++ rest) ∧
      (getElevationVariable g fetchOk area s).log.length ≤ 1 ∧
      (isfile (getElevationVariable g fetchOk area s).fs (elevLocalVar area) = false →
        (getElevationVariable g fetchOk area s).out = .error (.runtimeError fetchFailMsg))) := by
  refine ⟨?_, ?_, ?_⟩
  · intro ha
    simp [getElevationVariable, ha]
  · intro ha hn
    simp [getElevationVariable, ha, hn]
  · intro u ha hu
    have hred : getElevationVariable g fetchOk area s =
        elevCore fetchOk u area
          (if isdir (if isdir s NDFD_TMP then s else makedirs s NDFD_TMP) (elevLocalDir area)
            then (if isdir s NDFD_TMP then s else makedirs s NDFD_TMP)
            else makedirs (if isdir s NDFD_TMP then s else makedirs s NDFD_TMP)
              (elevLocalDir area)) := by
      simp only [getElevationVariable, if_neg ha, hu]
    rw [hred]
    exact elevCore_spec fetchOk u area _

/-- Witness for C9: with the override server `'http://srv/'` configured, an
area with elevation coverage, an empty filesystem and a network on which the
retrieval produces no file, the call ends in the fetch-failure `RuntimeError`,
and its one fetch URL goes to the override server. -/
theorem getElevationVariable_spec_witness :
    ("conus" ≠ "puertori" ∧ (Globals.mk (some "http://srv/") none).ndfdLocalServer =
        some "http://srv/") ∧
    (getElevationVariable ⟨some "http://srv/", none⟩ (fun _ => false) "conus" ⟨[], []⟩).out =
      .error (.runtimeError fetchFailMsg) ∧
    (getElevationVariable ⟨some "http://srv/", none⟩ (fun _ => false) "conus" ⟨[], []⟩).log =
      [elevRemoteVar "http://srv/" "conus"] :=
  ⟨⟨by decide, rfl⟩,
    ((getElevationVariable_spec ⟨some "http://srv/", none⟩ (fun _ => false) "conus"
        ⟨[], []⟩).2.2 "http://srv/" (by decide) rfl).2.2 (by decide),
    by decide⟩

/-! ## Elementary facts about the filesystem primitives -/

theorem isdir_iff (s : FS) (p : String) : isdir s p = true ↔ p ∈ s.dirs := by
  simp [isdir]

theorem isfile_iff (s : FS) (p : String) : isfile s p = true ↔ p ∈ s.files := by
  simp [isfile]

theorem mem_dirs_mkdirsIf {s : FS} {p : String} (q : String) (h : p ∈ s.dirs) :
    p ∈ (if isdir s q then s else makedirs s q).dirs := by
  split
  · exact h
  · exact List.mem_cons_of_mem _ h

theorem files_mkdirsIf (s : FS) (q : String) :
    (if isdir s q then s else makedirs s q).files = s.files := by
  split <;> rfl

theorem self_mem_mkdirsIf (s : FS) (q : String) :
    q ∈ (if isdir s q then s else makedirs s q).dirs := by
  by_cases h : isdir s q = true
  · rw [if_pos h]
    exact (isdir_iff s q).1 h
  · rw [if_neg h]
    exact List.mem_cons_self _ _

theorem mem_dirs_mkdirsIf_elim {s : FS} {p q : String}
    (h : p ∈ (if isdir s q then s else makedirs s q).dirs) : p ∈ s.dirs ∨ p = q := by
  revert h
  split
  · exact fun h => Or.inl h
  · intro h
    rcases List.mem_cons.1 h with h' | h'
    · exact Or.inr h'
    · exact Or.inl h'

theorem dirs_urlretrieve (fetchOk : String → Bool) (s : FS) (url dest : String) :
    (urlretrieve fetchOk s url dest).dirs = s.dirs := by
  unfold urlretrieve
  split <;> rfl

theorem mem_files_urlretrieve {s : FS} {p : String} (fetchOk : String → Bool)
    (url dest : String) (h : p ∈ s.files) : p ∈ (urlretrieve fetchOk s url dest).files := by
  unfold urlretrieve
  split
  · exact List.mem_cons_of_mem _ h
  · exact h

theorem mem_files_urlretrieve_elim {s : FS} {p : String} {fetchOk : String → Bool}
    {url dest : String} (h : p ∈ (urlretrieve fetchOk s url dest).files) :
    p ∈ s.files ∨ p = dest := by
  revert h
  unfold urlretrieve
  split
  · intro h
    rcases List.mem_cons.1 h with h' | h'
    · exact Or.inr h'
    · exact Or.inl h'
  · exact fun h => Or.inl h

/-! ## Facts about the string-prefix order -/

theorem leads_refl (l : List Char) : leads l l = true := by
  induction l with
  | nil => rfl
  | cons a as ih => simp [leads, ih]

theorem leads_append (l r : List Char) : leads l (l ++ r) = true := by
  induction l with
  | nil => rfl
  | cons a as ih => simp [leads, ih]

theorem strStarts_refl (p : String) : strStarts p p = true := leads_refl p.data

theorem strStarts_append (p q : String) : strStarts p (p ++ q) = true := by
  unfold strStarts
  rw [String.data_append]
  exact leads_append p.data q.data

/-- Within one call the loop only ever adds directories and files. -/
theorem getVarLoop_mono (fetchOk : String → Bool) (localServer : Option String)
    (remoteServer source area var dirTime : String) (rtHour : Int)
    (vps : List (String × List String)) :
    ∀ (s : FS) (log gribs : List String) (p : String),
      (p ∈ s.dirs →
        p ∈ (getVarLoop fetchOk localServer remoteServer source area var dirTime rtHour
              vps s log gribs).fs.dirs) ∧
      (p ∈ s.files →
        p ∈ (getVarLoop fetchOk localServer remoteServer source area var dirTime rtHour
              vps s log gribs).fs.files) := by
  induction vps with
  | nil =>
    intro s log gribs p
    exact ⟨fun h => h, fun h => h⟩
  | cons pv rest ih =>
    obtain ⟨vp, vars⟩ := pv
    intro s log gribs p
    by_cases hv : var ∈ vars
    · simp only [getVarLoop, if_pos hv]
      by_cases h1 : isfile (if isdir s (localDirOf source area dirTime rtHour vp) then s
          else makedirs s (localDirOf source area dirTime rtHour vp))
          (localVarOf source area var dirTime rtHour vp) = true
      · rw [if_pos h1]
        refine ⟨fun hp => (ih _ _ _ p).1 ?_, fun hp => (ih _ _ _ p).2 ?_⟩
        · exact mem_dirs_mkdirsIf _ hp
        · rw [files_mkdirsIf]
          exact hp
      · rw [if_neg h1]
        by_cases h2 : isfile (urlretrieve fetchOk
            (if isdir s (localDirOf source area dirTime rtHour vp) then s
              else makedirs s (localDirOf source area dirTime rtHour vp))
            (fetchUrlOf localServer remoteServer source area var rtHour vp)
            (localVarOf source area var dirTime rtHour vp))
            (localVarOf source area var dirTime rtHour vp) = true
        · rw [if_pos h2]
          refine ⟨fun hp => (ih _ _ _ p).1 ?_, fun hp => (ih _ _ _ p).2 ?_⟩
          · rw [dirs_urlretrieve]
            exact mem_dirs_mkdirsIf _ hp
          · refine mem_files_urlretrieve _ _ _ ?_
            rw [files_mkdirsIf]
            exact hp
        · rw [if_neg h2]
          refine ⟨fun hp => ?_, fun hp => ?_⟩
          · show p ∈ (urlretrieve fetchOk _ _ _).dirs
            rw [dirs_urlretrieve]
            exact mem_dirs_mkdirsIf _ hp
          · show p ∈ (urlretrieve fetchOk _ _ _).files
            refine mem_files_urlretrieve _ _ _ ?_
            rw [files_mkdirsIf]
            exact hp
    · simp only [getVarLoop, if_neg hv]
      exact ih s log gribs p

/-- A successful run returns the catalog-ordered local paths appended to the
incoming accumulator. -/
theorem getVarLoop_ok_paths (fetchOk : String → Bool) (localServer : Option String)
    (remoteServer source area var dirTime : String) (rtHour : Int)
    (vps : List (String × List String)) :
    ∀ (s : FS) (log gribs : List String) (gs : List String) (s' : FS) (log' : List String),
      getVarLoop fetchOk localServer remoteServer source area var dirTime rtHour vps s log
          gribs = ⟨.ok gs, s', log'⟩ →
      gs = gribs ++ loopPaths source area var dirTime rtHour vps := by
  induction vps with
  | nil =>
    intro s log gribs gs s' log' h
    simp only [getVarLoop, VarResult.mk.injEq] at h
    simp [loopPaths, ← (Except.ok.inj h.1)]
  | cons pv0 rest ih =>
    obtain ⟨vp, vars⟩ := pv0
    intro s log gribs gs s' log' h
    by_cases hv : var ∈ vars
    · simp only [getVarLoop, if_pos hv] at h
      generalize hs1 : (if isdir s (localDirOf source area dirTime rtHour vp) then s
          else makedirs s (localDirOf source area dirTime rtHour vp)) = s1 at h
      have hpaths : loopPaths source area var dirTime rtHour ((vp, vars) :: rest) =
          localVarOf source area var dirTime rtHour vp ::
            loopPaths source area var dirTime rtHour rest := by
        simp [loopPaths, hv]
      rw [hpaths]
      split at h
      · have := ih _ _ _ _ _ _ h
        simpa [List.append_assoc] using this
      · split at h
        · have := ih _ _ _ _ _ _ h
          simpa [List.append_assoc] using this
        · simp at h
    · simp only [getVarLoop, if_neg hv] at h
      have hpaths : loopPaths source area var dirTime rtHour ((vp, vars) :: rest) =
          loopPaths source area var dirTime rtHour rest := by
        simp [loopPaths, hv]
      rw [hpaths]
      exact ih _ _ _ _ _ _ h

/-- After a successful run, the directory and file of every matching validity
period exist in the final state. -/
theorem getVarLoop_ok_complete (fetchOk : String → Bool) (localServer : Option String)
    (remoteServer source area var dirTime : String) (rtHour : Int)
    (vps : List (String × List String)) :
    ∀ (s : FS) (log gribs : List String) (gs : List String) (s' : FS) (log' : List String),
      getVarLoop fetchOk localServer remoteServer source area var dirTime rtHour vps s log
          gribs = ⟨.ok gs, s', log'⟩ →
      ∀ pv ∈ vps, var ∈ pv.2 →
        localDirOf source area dirTime rtHour pv.1 ∈ s'.dirs ∧
        localVarOf source area var dirTime rtHour pv.1 ∈ s'.files := by
  induction vps with
  | nil =>
    intro s log gribs gs s' log' _ pv hpv
    exact absurd hpv (List.not_mem_nil pv)
  | cons pv0 rest ih =>
    obtain ⟨vp, vars⟩ := pv0
    intro s log gribs gs s' log' h pv hpv hvin
    by_cases hv : var ∈ vars
    · simp only [getVarLoop, if_pos hv] at h
      generalize hs1 : (if isdir s (localDirOf source area dirTime rtHour vp) then s
          else makedirs s (localDirOf source area dirTime rtHour vp)) = s1 at h
      have hdirS1 : localDirOf source area dirTime rtHour vp ∈ s1.dirs := by
        rw [← hs1]
        exact self_mem_mkdirsIf s _
      rcases List.mem_cons.1 hpv with hhd | htl
      · subst hhd
        split at h
        next h1 =>
          have hfs : (getVarLoop fetchOk localServer remoteServer source area var dirTime
              rtHour rest s1 log
              (gribs ++ [localVarOf source area var dirTime rtHour vp])).fs = s' := by
            rw [h]
          constructor
          · rw [← hfs]
            exact (getVarLoop_mono fetchOk localServer remoteServer source area var dirTime
              rtHour rest _ _ _ _).1 hdirS1
          · rw [← hfs]
            exact (getVarLoop_mono fetchOk localServer remoteServer source area var dirTime
              rtHour rest _ _ _ _).2 ((isfile_iff _ _).1 h1)
        next h1 =>
          split at h
          next h2 =>
            have hfs : (getVarLoop fetchOk localServer remoteServer source area var dirTime
                rtHour rest
                (urlretrieve fetchOk s1
                  (fetchUrlOf localServer remoteServer source area var rtHour vp)
                  (localVarOf source area var dirTime rtHour vp))
                (log ++ [fetchUrlOf localServer remoteServer source area var rtHour vp])
                (gribs ++ [localVarOf source area var dirTime rtHour vp])).fs = s' := by
              rw [h]
            constructor
            · rw [← hfs]
              refine (getVarLoop_mono fetchOk localServer remoteServer source area var dirTime
                rtHour rest _ _ _ _).1 ?_
              rw [dirs_urlretrieve]
              exact hdirS1
            · rw [← hfs]
              exact (getVarLoop_mono fetchOk localServer remoteServer source area var dirTime
                rtHour rest _ _ _ _).2 ((isfile_iff _ _).1 h2)
          next h2 => simp at h
      · split at h
        next => exact ih _ _ _ _ _ _ h pv htl hvin
        next =>
          split at h
          next => exact ih _ _ _ _ _ _ h pv htl hvin
          next => simp at h
    · simp only [getVarLoop, if_neg hv] at h
      rcases List.mem_cons.1 hpv with hhd | htl
      · subst hhd
        exact absurd hvin hv
      · exact ih _ _ _ _ _ _ h pv htl hvin

/-- Rerunning the loop on a state in which every matching directory and file
already exists changes nothing: no directory creation, no fetch, and the same
catalog-ordered paths are returned. -/
theorem getVarLoop_rerun (fetchOk : String → Bool) (localServer : Option String)
    (remoteServer source area var dirTime : String) (rtHour : Int)
    (vps : List (String × List String)) :
    ∀ (s : FS) (log gribs : List String),
      (∀ pv ∈ vps, var ∈ pv.2 →
        localDirOf source area dirTime rtHour pv.1 ∈ s.dirs ∧
        localVarOf source area var dirTime rtHour pv.1 ∈ s.files) →
      getVarLoop fetchOk localServer remoteServer source area var dirTime rtHour vps s log
          gribs = ⟨.ok (gribs ++ loopPaths source area var dirTime rtHour vps), s, log⟩ := by
  induction vps with
  | nil =>
    intro s log gribs _
    simp [getVarLoop, loopPaths]
  | cons pv0 rest ih =>
    obtain ⟨vp, vars⟩ := pv0
    intro s log gribs hall
    by_cases hv : var ∈ vars
    · have hhd := hall (vp, vars) (List.mem_cons_self _ _) hv
      have hdir : isdir s (localDirOf source area dirTime rtHour vp) = true :=
        (isdir_iff _ _).2 hhd.1
      have hfile : isfile s (localVarOf source area var dirTime rtHour vp) = true :=
        (isfile_iff _ _).2 hhd.2
      have hpaths : loopPaths source area var dirTime rtHour ((vp, vars) :: rest) =
          localVarOf source area var dirTime rtHour vp ::
            loopPaths source area var dirTime rtHour rest := by
        simp [loopPaths, hv]
      simp only [getVarLoop]
      rw [if_pos hv, if_pos hdir, if_pos hfile, hpaths,
        ih s log (gribs ++ [localVarOf source area var dirTime rtHour vp])
          (fun pv hpv hvin => hall pv (List.mem_cons_of_mem _ hpv) hvin)]
      simp [List.append_assoc]
    · have hpaths : loopPaths source area var dirTime rtHour ((vp, vars) :: rest) =
          loopPaths source area var dirTime rtHour rest := by
        simp [loopPaths, hv]
      simp only [getVarLoop]
      rw [if_neg hv, hpaths]
      exact ih s log gribs (fun pv hpv hvin => hall pv (List.mem_cons_of_mem _ hpv) hvin)

/-- Every URL the loop fetches is the selected server base followed by the
archive-relative variable path. -/
theorem getVarLoop_urls (fetchOk : String → Bool) (localServer : Option String)
    (remoteServer source area var dirTime : String) (rtHour : Int)
    (vps : List (String × List String)) :
    ∀ (s : FS) (log gribs : List String) (url : String),
      url ∈ (getVarLoop fetchOk localServer remoteServer source area var dirTime rtHour vps
          s log gribs).log →
      url ∈ log ∨ ∃ rest,
        url = (match localServer with | some u => u | none => remoteServer) ++ rest := by
  induction vps with
  | nil =>
    intro s log gribs url h
    exact Or.inl h
  | cons pv0 rest ih =>
    obtain ⟨vp, vars⟩ := pv0
    intro s log gribs url h
    by_cases hv : var ∈ vars
    · simp only [getVarLoop, if_pos hv] at h
      generalize hs1 : (if isdir s (localDirOf source area dirTime rtHour vp) then s
          else makedirs s (localDirOf source area dirTime rtHour vp)) = s1 at h
      split at h
      · exact ih _ _ _ _ h
      · split at h
        · rcases ih _ _ _ _ h with hmem | hbase
          · rcases List.mem_append.1 hmem with hl | hr
            · exact Or.inl hl
            · refine Or.inr ⟨varDirFor source area rtHour vp ++ ndfdVarFile var, ?_⟩
              simpa [fetchUrlOf] using List.mem_singleton.1 hr
          · exact Or.inr hbase
        · have h' : url ∈ log ++ [fetchUrlOf localServer remoteServer source area var
              rtHour vp] := h
          rcases List.mem_append.1 h' with hl | hr
          · exact Or.inl hl
          · refine Or.inr ⟨varDirFor source area rtHour vp ++ ndfdVarFile var, ?_⟩
            simpa [fetchUrlOf] using List.mem_singleton.1 hr
    · simp only [getVarLoop, if_neg hv] at h
      exact ih _ _ _ _ h

/-- Everything the loop creates lives under the cycle directory `dirTime`. -/
theorem getVarLoop_underDir (fetchOk : String → Bool) (localServer : Option String)
    (remoteServer source area var dirTime : String) (rtHour : Int)
    (vps : List (String × List String)) :
    ∀ (s : FS) (log gribs : List String) (p : String),
      (p ∈ (getVarLoop fetchOk localServer remoteServer source area var dirTime rtHour vps
          s log gribs).fs.dirs → p ∈ s.dirs ∨ strStarts dirTime p = true) ∧
      (p ∈ (getVarLoop fetchOk localServer remoteServer source area var dirTime rtHour vps
          s log gribs).fs.files → p ∈ s.files ∨ strStarts dirTime p = true) := by
  induction vps with
  | nil =>
    intro s log gribs p
    exact ⟨fun h => Or.inl h, fun h => Or.inl h⟩
  | cons pv0 rest ih =>
    obtain ⟨vp, vars⟩ := pv0
    intro s log gribs p
    by_cases hv : var ∈ vars
    · simp only [getVarLoop, if_pos hv]
      generalize hs1 : (if isdir s (localDirOf source area dirTime rtHour vp) then s
          else makedirs s (localDirOf source area dirTime rtHour vp)) = s1
      have hs1dir : ∀ q, q ∈ s1.dirs → q ∈ s.dirs ∨ strStarts dirTime q = true := by
        intro q hq
        rw [← hs1] at hq
        rcases mem_dirs_mkdirsIf_elim hq with h' | h'
        · exact Or.inl h'
        · exact Or.inr (h' ▸ strStarts_append dirTime _)
      have hs1file : ∀ q, q ∈ s1.files → q ∈ s.files := by
        intro q hq
        rw [← hs1, files_mkdirsIf] at hq
        exact hq
      constructor
      · intro h
        split at h
        · rcases (ih _ _ _ p).1 h with hmem | hpre
          · exact hs1dir p hmem
          · exact Or.inr hpre
        · split at h
          · rcases (ih _ _ _ p).1 h with hmem | hpre
            · rw [dirs_urlretrieve] at hmem
              exact hs1dir p hmem
            · exact Or.inr hpre
          · have h' : p ∈ (urlretrieve fetchOk s1
                (fetchUrlOf localServer remoteServer source area var rtHour vp)
                (localVarOf source area var dirTime rtHour vp)).dirs := h
            rw [dirs_urlretrieve] at h'
            exact hs1dir p h'
      · intro h
        split at h
        · rcases (ih _ _ _ p).2 h with hmem | hpre
          · exact Or.inl (hs1file p hmem)
          · exact Or.inr hpre
        · split at h
          · rcases (ih _ _ _ p).2 h with hmem | hpre
            · rcases mem_files_urlretrieve_elim hmem with h' | h'
              · exact Or.inl (hs1file p h')
              · exact Or.inr (h' ▸ strStarts_append dirTime _)
            · exact Or.inr hpre
          · have h' : p ∈ (urlretrieve fetchOk s1
                (fetchUrlOf localServer remoteServer source area var rtHour vp)
                (localVarOf source area var dirTime rtHour vp)).files := h
            rcases mem_files_urlretrieve_elim h' with h'' | h''
            · exact Or.inl (hs1file p h'')
            · exact Or.inr (h'' ▸ strStarts_append dirTime _)
    · simp only [getVarLoop, if_neg hv]
      exact ih s log gribs p

/-! ## Unfolding `getVariable` -/

theorem getVariable_eq_loop (g : Globals) (cat : VarsCatalog) (fetchOk : String → Bool)
    (now : Nat) (var area source : String) (s : FS) (vps : List (String × List String))
    (hsrc : source = "NDFD" ∨ source = "RTMA") (hcat : dictGet area cat = some vps) :
    getVariable g cat fetchOk now var area source s =
      getVarLoop fetchOk (localServerOf g source) (remoteServerOf source) source area var
        (dirTimeOf source now) ((hourOfDay now : Int) - 1) vps
        (if isdir s (dirTimeOf source now) then s
          else makedirs (rmtree s (tmpOf source)) (dirTimeOf source now)) [] [] := by
  simp only [getVariable]
  rw [if_pos hsrc, hcat]

theorem getVariable_invalid_area (g : Globals) (cat : VarsCatalog) (fetchOk : String → Bool)
    (now : Nat) (var area source : String) (s : FS)
    (hsrc : source = "NDFD" ∨ source = "RTMA") (hcat : dictGet area cat = none) :
    getVariable g cat fetchOk now var area source s =
      ⟨.error (.valueError ("Invalid Area: " ++ area)),
        (if isdir s (dirTimeOf source now) then s
          else makedirs (rmtree s (tmpOf source)) (dirTimeOf source now)), []⟩ := by
  simp only [getVariable]
  rw [if_pos hsrc, hcat]

/-! ## C2: cache reuse within one forecast cycle -/

theorem varDirFor_ndfd (area : String) (rt : Int) (vp : String) :
    varDirFor "NDFD" area rt vp = ndfdDir area vp := by
  simp [varDirFor]

theorem localDirOf_ndfd (area dirTime : String) (rt : Int) (vp : String) :
    localDirOf "NDFD" area dirTime rt vp = dirTime ++ ndfdDir area vp := by
  simp [localDirOf, varDirFor_ndfd]

theorem localVarOf_ndfd (area var dirTime : String) (rt : Int) (vp : String) :
    localVarOf "NDFD" area var dirTime rt vp = dirTime ++ (ndfdDir area vp ++ ndfdVarFile var) := by
  simp [localVarOf, varDirFor_ndfd]

theorem fetchUrlOf_ndfd (localServer : Option String) (remoteServer area var : String)
    (rt : Int) (vp : String) :
    fetchUrlOf localServer remoteServer "NDFD" area var rt vp =
      (match localServer with | some u => u | none => remoteServer) ++
        (ndfdDir area vp ++ ndfdVarFile var) := by
  simp [fetchUrlOf, varDirFor_ndfd]

/-- For the NDFD source the loop never looks at the analysis hour. -/
theorem getVarLoop_ndfd_rtHour (fetchOk : String → Bool) (localServer : Option String)
    (remoteServer area var dirTime : String) (rt1 rt2 : Int)
    (vps : List (String × List String)) :
    ∀ (s : FS) (log gribs : List String),
      getVarLoop fetchOk localServer remoteServer "NDFD" area var dirTime rt1 vps s log gribs =
        getVarLoop fetchOk localServer remoteServer "NDFD" area var dirTime rt2 vps s log
          gribs := by
  induction vps with
  | nil =>
    intro s log gribs
    rfl
  | cons pv0 rest ih =>
    obtain ⟨vp, vars⟩ := pv0
    intro s log gribs
    by_cases hv : var ∈ vars
    · simp only [getVarLoop, if_pos hv]
      rw [show localDirOf "NDFD" area dirTime rt1 vp = localDirOf "NDFD" area dirTime rt2 vp
          from by simp [localDirOf, varDirFor_ndfd],
        show localVarOf "NDFD" area var dirTime rt1 vp =
            localVarOf "NDFD" area var dirTime rt2 vp
          from by simp [localVarOf, varDirFor_ndfd],
        show fetchUrlOf localServer remoteServer "NDFD" area var rt1 vp =
            fetchUrlOf localServer remoteServer "NDFD" area var rt2 vp
          from by simp [fetchUrlOf, varDirFor_ndfd]]
      by_cases h1 : isfile (if isdir s (localDirOf "NDFD" area dirTime rt2 vp) then s
          else makedirs s (localDirOf "NDFD" area dirTime rt2 vp))
          (localVarOf "NDFD" area var dirTime rt2 vp) = true
      · rw [if_pos h1, if_pos h1]
        exact ih _ _ _
      · rw [if_neg h1, if_neg h1]
        by_cases h2 : isfile (urlretrieve fetchOk
            (if isdir s (localDirOf "NDFD" area dirTime rt2 vp) then s
              else makedirs s (localDirOf "NDFD" area dirTime rt2 vp))
            (fetchUrlOf localServer remoteServer "NDFD" area var rt2 vp)
            (localVarOf "NDFD" area var dirTime rt2 vp))
            (localVarOf "NDFD" area var dirTime rt2 vp) = true
        · rw [if_pos h2, if_pos h2]
          exact ih _ _ _
        · rw [if_neg h2, if_neg h2]
    · simp only [getVarLoop, if_neg hv]
      exact ih _ _ _

/-- C2 (amended): if `getVariable` succeeds and is invoked again at an instant
resolving to the same forecast cycle — and, for the RTMA source, within the
same wall-clock hour — then the second invocation performs no network fetch
and returns exactly the same list of local paths, leaving the filesystem
untouched. -/
theorem getVariable_second_call_cached (g : Globals) (cat : VarsCatalog)
    (fetchOk : String → Bool) (now1 now2 : Nat) (var area source : String) (s s1 : FS)
    (gs log1 : List String)
    (hcyc : getLatestForecastTime now1 = getLatestForecastTime now2)
    (hhr : source = "RTMA" → hourOfDay now1 = hourOfDay now2)
    (h1 : getVariable g cat fetchOk now1 var area source s = ⟨.ok gs, s1, log1⟩) :
    getVariable g cat fetchOk now2 var area source s1 = ⟨.ok gs, s1, []⟩ := by
  by_cases hsrc : source = "NDFD" ∨ source = "RTMA"
  case neg =>
    exfalso
    unfold getVariable at h1
    rw [if_neg hsrc] at h1
    simp at h1
  case pos =>
    cases hcat : dictGet area cat with
    | none =>
      exfalso
      rw [getVariable_invalid_area g cat fetchOk now1 var area source s hsrc hcat] at h1
      simp at h1
    | some vps =>
      rw [getVariable_eq_loop g cat fetchOk now1 var area source s vps hsrc hcat] at h1
      have hdirTimeEq : dirTimeOf source now1 = dirTimeOf source now2 := by
        unfold dirTimeOf
        rw [hcyc]
      have hfs : (getVarLoop fetchOk (localServerOf g source) (remoteServerOf source) source
          area var (dirTimeOf source now1) ((hourOfDay now1 : Int) - 1) vps
          (if isdir s (dirTimeOf source now1) then s
            else makedirs (rmtree s (tmpOf source)) (dirTimeOf source now1)) [] []).fs
          = s1 := by
        rw [h1]
      have hdmem : dirTimeOf source now1 ∈ s1.dirs := by
        rw [← hfs]
        refine (getVarLoop_mono fetchOk (localServerOf g source) (remoteServerOf source)
          source area var (dirTimeOf source now1) ((hourOfDay now1 : Int) - 1) vps _ _ _ _).1 ?_
        by_cases hd : isdir s (dirTimeOf source now1) = true
        · rw [if_pos hd]
          exact (isdir_iff _ _).1 hd
        · rw [if_neg hd]
          exact List.mem_cons_self _ _
      have hcomplete := getVarLoop_ok_complete fetchOk (localServerOf g source)
        (remoteServerOf source) source area var (dirTimeOf source now1)
        ((hourOfDay now1 : Int) - 1) vps _ _ _ _ _ _ h1
      have hpaths := getVarLoop_ok_paths fetchOk (localServerOf g source)
        (remoteServerOf source) source area var (dirTimeOf source now1)
        ((hourOfDay now1 : Int) - 1) vps _ _ _ _ _ _ h1
      rw [getVariable_eq_loop g cat fetchOk now2 var area source s1 vps hsrc hcat,
        ← hdirTimeEq, if_pos ((isdir_iff _ _).2 hdmem)]
      rcases hsrc with hN | hR
      · subst hN
        rw [getVarLoop_ndfd_rtHour fetchOk (localServerOf g "NDFD") (remoteServerOf "NDFD")
          area var (dirTimeOf "NDFD" now1) ((hourOfDay now2 : Int) - 1)
          ((hourOfDay now1 : Int) - 1) vps s1 [] []]
        rw [getVarLoop_rerun fetchOk (localServerOf g "NDFD") (remoteServerOf "NDFD") "NDFD"
          area var (dirTimeOf "NDFD" now1) ((hourOfDay now1 : Int) - 1) vps s1 [] [] hcomplete]
        rw [hpaths]
      · have hhr' := hhr hR
        subst hR
        rw [← hhr']
        rw [getVarLoop_rerun fetchOk (localServerOf g "RTMA") (remoteServerOf "RTMA") "RTMA"
          area var (dirTimeOf "RTMA" now1) ((hourOfDay now1 : Int) - 1) vps s1 [] [] hcomplete]
        rw [hpaths]

/-! ## C3: cycle rollover -/

theorem rmtree_not_under {s : FS} {root p : String} :
    (p ∈ (rmtree s root).dirs → strStarts root p = false) ∧
    (p ∈ (rmtree s root).files → strStarts root p = false) := by
  unfold rmtree
  constructor
  · intro h
    have := (List.mem_filter.1 h).2
    simpa using this
  · intro h
    have := (List.mem_filter.1 h).2
    simpa using this

/-- C3: whenever a `getVariable` call (with a valid source string) finds that
the active cycle's cache directory does not yet exist, the whole previous
cache root for that source is discarded before the new cycle's directory is
created: afterwards the new cycle directory exists and everything under the
source's cache root lies under the new cycle's directory — any prior cycle's
directory and files are gone. -/
theorem getVariable_rollover (g : Globals) (cat : VarsCatalog) (fetchOk : String → Bool)
    (now : Nat) (var area source : String) (s : FS)
    (hsrc : source = "NDFD" ∨ source = "RTMA")
    (hnew : isdir s (dirTimeOf source now) = false) :
    dirTimeOf source now ∈ (getVariable g cat fetchOk now var area source s).fs.dirs ∧
    ∀ p, (p ∈ (getVariable g cat fetchOk now var area source s).fs.dirs ∨
          p ∈ (getVariable g cat fetchOk now var area source s).fs.files) →
      strStarts (tmpOf source) p = true → strStarts (dirTimeOf source now) p = true := by
  have hnot : ¬ isdir s (dirTimeOf source now) = true := by
    rw [hnew]
    exact fun h => Bool.noConfusion h
  cases hcat : dictGet area cat with
  | some vps =>
    rw [getVariable_eq_loop g cat fetchOk now var area source s vps hsrc hcat, if_neg hnot]
    constructor
    · exact (getVarLoop_mono fetchOk (localServerOf g source) (remoteServerOf source) source
        area var (dirTimeOf source now) ((hourOfDay now : Int) - 1) vps _ _ _ _).1
        (List.mem_cons_self _ _)
    · intro p hp htmp
      rcases hp with hd | hf
      · rcases (getVarLoop_underDir fetchOk (localServerOf g source) (remoteServerOf source)
          source area var (dirTimeOf source now) ((hourOfDay now : Int) - 1) vps _ _ _ p).1
          hd with hmem | hpre
        · rcases List.mem_cons.1 hmem with heq | hin
          · rw [heq]
            exact strStarts_refl _
          · exact absurd htmp (by rw [rmtree_not_under.1 hin]; exact fun h => Bool.noConfusion h)
        · exact hpre
      · rcases (getVarLoop_underDir fetchOk (localServerOf g source) (remoteServerOf source)
          source area var (dirTimeOf source now) ((hourOfDay now : Int) - 1) vps _ _ _ p).2
          hf with hmem | hpre
        · exact absurd htmp (by rw [rmtree_not_under.2 hmem]; exact fun h => Bool.noConfusion h)
        · exact hpre
  | none =>
    rw [getVariable_invalid_area g cat fetchOk now var area source s hsrc hcat, if_neg hnot]
    constructor
    · exact List.mem_cons_self _ _
    · intro p hp htmp
      rcases hp with hd | hf
      · rcases List.mem_cons.1 hd with heq | hin
        · rw [heq]
          exact strStarts_refl _
        · exact absurd htmp (by rw [rmtree_not_under.1 hin]; exact fun h => Bool.noConfusion h)
      · exact absurd htmp (by rw [rmtree_not_under.2 hf]; exact fun h => Bool.noConfusion h)

/-- C8 (amended): server substitution is total per process and per source.
Every URL fetched by `getVariable` is built on `serverBase`: the source's own
override when configured, the public remote archive otherwise.  The only
setter, `setLocalCacheServerNDFD`, configures the NDFD override and leaves the
RTMA override untouched; both overrides start unset, so RTMA fetches always
use the public archive.  The globals are read, not mutated, by `getVariable`
(which takes them as an immutable argument). -/
theorem getVariable_server_selection (g : Globals) (cat : VarsCatalog)
    (fetchOk : String → Bool) (now : Nat) (var area source uri : String) (s : FS)
    (url : String)
    (hmem : url ∈ (getVariable g cat fetchOk now var area source s).log) :
    (∃ rest, url = serverBase g source ++ rest) ∧
    (setLocalCacheServerNDFD uri g).ndfdLocalServer = some uri ∧
    (setLocalCacheServerNDFD uri g).rtmaLocalServer = g.rtmaLocalServer ∧
    initGlobals.ndfdLocalServer = none ∧ initGlobals.rtmaLocalServer = none := by
  refine ⟨?_, rfl, rfl, rfl, rfl⟩
  by_cases hsrc : source = "NDFD" ∨ source = "RTMA"
  · cases hcat : dictGet area cat with
    | some vps =>
      rw [getVariable_eq_loop g cat fetchOk now var area source s vps hsrc hcat] at hmem
      rcases getVarLoop_urls fetchOk (localServerOf g source) (remoteServerOf source) source
        area var (dirTimeOf source now) ((hourOfDay now : Int) - 1) vps _ _ _ _ hmem with
        h0 | hbase
      · exact absurd h0 (List.not_mem_nil url)
      · exact hbase
    | none =>
      rw [getVariable_invalid_area g cat fetchOk now var area source s hsrc hcat] at hmem
      exact absurd hmem (List.not_mem_nil url)
  · unfold getVariable at hmem
    rw [if_neg hsrc] at hmem
    exact absurd hmem (List.not_mem_nil url)

/-! ## C10: the RTMA analysis hour is the live wall-clock hour minus one -/

/-- C10: for every successful RTMA call, every returned cache path carries the
analysis-hour component `RT.(hour-1)` computed from the live wall-clock UTC
hour, not from the resolved forecast cycle; during UTC hour 0 that component
renders as `-1` (so the path contains `RT.-1`), not as `23`. -/
theorem getVariable_rtma_livehour (g : Globals) (cat : VarsCatalog)
    (fetchOk : String → Bool) (now : Nat) (var area : String) (s : FS)
    (gs : List String) (s' : FS) (log' : List String)
    (h : getVariable g cat fetchOk now var area "RTMA" s = ⟨.ok gs, s', log'⟩) :
    (∀ p ∈ gs, p = dirTimeOf "RTMA" now ++
        (rtmaDir area ((hourOfDay now : Int) - 1) ++ ndfdVarFile var)) ∧
    (hourOfDay now = 0 → toString ((hourOfDay now : Int) - 1) = "-1" ∧
      toString ((hourOfDay now : Int) - 1) ≠ "23") := by
  constructor
  · cases hcat : dictGet area cat with
    | none =>
      rw [getVariable_invalid_area g cat fetchOk now var area "RTMA" s (Or.inr rfl) hcat] at h
      simp at h
    | some vps =>
      rw [getVariable_eq_loop g cat fetchOk now var area "RTMA" s vps (Or.inr rfl) hcat] at h
      have hgs := getVarLoop_ok_paths fetchOk (localServerOf g "RTMA")
        (remoteServerOf "RTMA") "RTMA" area var (dirTimeOf "RTMA" now)
        ((hourOfDay now : Int) - 1) vps _ _ _ _ _ _ h
      intro p hp
      rw [hgs] at hp
      simp only [List.nil_append] at hp
      unfold loopPaths at hp
      rcases List.mem_filterMap.1 hp with ⟨pv, _, hif⟩
      split at hif
      · rw [← Option.some.inj hif]
        unfold localVarOf varDirFor
        rw [if_neg (by decide : ¬ ("RTMA" : String) = "NDFD")]
      · exact Option.noConfusion hif
  · intro h0
    rw [h0]
    exact ⟨by decide, by decide⟩

/-- Counterexample to C2 as stated: two invocations during the same forecast
cycle (10:20 and 11:05 both resolve to cycle 10:00), same (source, tile,
variable) = (RTMA, conus, temp).  The second invocation performs a network
fetch (its log is nonempty) and returns a different list of local paths,
because the RTMA path component uses the live wall-clock hour (9 vs 10), which
changed within the cycle. -/
theorem getVariable_rtma_same_cycle_refetch :
    getLatestForecastTime nowA = getLatestForecastTime nowB ∧
    (getVariable initGlobals demoCat (fun _ => true) nowA "temp" "conus" "RTMA"
        ⟨[], []⟩).out =
      .ok [dirTimeOf "RTMA" nowA ++ (rtmaDir "conus" 9 ++ ndfdVarFile "temp")] ∧
    (getVariable initGlobals demoCat (fun _ => true) nowB "temp" "conus" "RTMA"
        (getVariable initGlobals demoCat (fun _ => true) nowA "temp" "conus" "RTMA"
          ⟨[], []⟩).fs).log ≠ [] ∧
    (getVariable initGlobals demoCat (fun _ => true) nowB "temp" "conus" "RTMA"
        (getVariable initGlobals demoCat (fun _ => true) nowA "temp" "conus" "RTMA"
          ⟨[], []⟩).fs).out ≠
      (getVariable initGlobals demoCat (fun _ => true) nowA "temp" "conus" "RTMA"
        ⟨[], []⟩).out := by
  exact ⟨by decide, by decide, by decide, by decide⟩

/-- Witness for C2 (amended): a first NDFD call at 100h20m fetches once; the
second call at the same instant performs no fetch, leaves the filesystem
untouched and returns the identical path list. -/
theorem getVariable_second_call_cached_witness :
    getVariable initGlobals demoCat (fun _ => true) now820 "temp" "conus" "NDFD" ⟨[], []⟩ =
      ⟨.ok [cachedVarPath], cachedFS,
        [fetchUrlOf none NDFD_REMOTE_SERVER "NDFD" "conus" "temp" 3 "001-003"]⟩ ∧
    getVariable initGlobals demoCat (fun _ => true) now820 "temp" "conus" "NDFD" cachedFS =
      ⟨.ok [cachedVarPath], cachedFS, []⟩ :=
  ⟨by decide,
    getVariable_second_call_cached initGlobals demoCat (fun _ => true) now820 now820 "temp"
      "conus" "NDFD" ⟨[], []⟩ cachedFS [cachedVarPath]
      [fetchUrlOf none NDFD_REMOTE_SERVER "NDFD" "conus" "temp" 3 "001-003"]
      rfl (fun _ => rfl) (by decide)⟩

/-- Witness for C3: starting from a filesystem holding only the stale cycle
`999`, a call under the new cycle creates the new cycle directory and the
stale cycle's directory is gone afterwards. -/
theorem getVariable_rollover_witness :
    (("NDFD" = "NDFD" ∨ "NDFD" = "RTMA") ∧
      isdir staleFS (dirTimeOf "NDFD" now820) = false) ∧
    dirTimeOf "NDFD" now820 ∈
      (getVariable initGlobals demoCat (fun _ => true) now820 "temp" "conus" "NDFD"
        staleFS).fs.dirs ∧
    (NDFD_TMP ++ "999" ++ sep) ∉
      (getVariable initGlobals demoCat (fun _ => true) now820 "temp" "conus" "NDFD"
        staleFS).fs.dirs ∧
    (NDFD_TMP ++ "999" ++ sep ++ "ds.temp.bin") ∉
      (getVariable initGlobals demoCat (fun _ => true) now820 "temp" "conus" "NDFD"
        staleFS).fs.files :=
  ⟨⟨Or.inl rfl, by decide⟩,
    (getVariable_rollover initGlobals demoCat (fun _ => true) now820 "temp" "conus" "NDFD"
      staleFS (Or.inl rfl) (by decide)).1,
    by decide, by decide⟩

/-- Counterexample to C8 as stated: after configuring the override server via
`setLocalCacheServerNDFD` (the only setter the source provides), an RTMA fetch
still builds its URL from the public remote archive, not from the override —
the substitution is not total across both sources. -/
theorem getVariable_override_ignored_for_rtma :
    (getVariable (setLocalCacheServerNDFD "http://override/" initGlobals) demoCat
        (fun _ => true) now820 "temp" "conus" "RTMA" ⟨[], []⟩).log =
      [fetchUrlOf none RTMA_REMOTE_SERVER "RTMA" "conus" "temp" 3 "001-003"] ∧
    strStarts "http://override/"
      (fetchUrlOf none RTMA_REMOTE_SERVER "RTMA" "conus" "temp" 3 "001-003") = false ∧
    strStarts NDFD_REMOTE_SERVER
      (fetchUrlOf none RTMA_REMOTE_SERVER "RTMA" "conus" "temp" 3 "001-003") = true := by
  exact ⟨by decide, by decide, by decide⟩

/-- Witness for C8 (amended): a concrete RTMA fetch URL is the per-source
server base (here the public archive, the RTMA override being unset) followed
by the archive-relative path, and the setter leaves the RTMA override
untouched. -/
theorem getVariable_server_selection_witness :
    fetchUrlOf none RTMA_REMOTE_SERVER "RTMA" "conus" "temp" 3 "001-003" ∈
      (getVariable (setLocalCacheServerNDFD "http://override/" initGlobals) demoCat
        (fun _ => true) now820 "temp" "conus" "RTMA" ⟨[], []⟩).log ∧
    (∃ rest, fetchUrlOf none RTMA_REMOTE_SERVER "RTMA" "conus" "temp" 3 "001-003" =
      serverBase (setLocalCacheServerNDFD "http://override/" initGlobals) "RTMA" ++ rest) ∧
    (setLocalCacheServerNDFD "http://override/" initGlobals).rtmaLocalServer =
      initGlobals.rtmaLocalServer :=
  ⟨by decide,
    (getVariable_server_selection (setLocalCacheServerNDFD "http://override/" initGlobals)
      demoCat (fun _ => true) now820 "temp" "conus" "RTMA" "http://override/" ⟨[], []⟩
      (fetchUrlOf none RTMA_REMOTE_SERVER "RTMA" "conus" "temp" 3 "001-003")
      (by decide)).1,
    (getVariable_server_selection (setLocalCacheServerNDFD "http://override/" initGlobals)
      demoCat (fun _ => true) now820 "temp" "conus" "RTMA" "http://override/" ⟨[], []⟩
      (fetchUrlOf none RTMA_REMOTE_SERVER "RTMA" "conus" "temp" 3 "001-003")
      (by decide)).2.2.1⟩

/-- Witness for C10: at 00:10 UTC of day 2 the resolved forecast cycle is
23:00 of day 1, yet the RTMA path component is computed from the live
wall-clock hour 0, rendering as `RT.-1` (not `RT.23`). -/
theorem getVariable_rtma_livehour_witness :
    getLatestForecastTime nowH0 = 23 * HOUR_U ∧
    hourOfDay nowH0 = 0 ∧
    getVariable initGlobals demoCat (fun _ => true) nowH0 "temp" "conus" "RTMA" ⟨[], []⟩ =
      ⟨.ok [dirTimeOf "RTMA" nowH0 ++
          (rtmaDir "conus" ((hourOfDay nowH0 : Int) - 1) ++ ndfdVarFile "temp")],
        ⟨[localDirOf "RTMA" "conus" (dirTimeOf "RTMA" nowH0) (-1) "001-003",
          dirTimeOf "RTMA" nowH0],
          [dirTimeOf "RTMA" nowH0 ++
            (rtmaDir "conus" ((hourOfDay nowH0 : Int) - 1) ++ ndfdVarFile "temp")]⟩,
        [fetchUrlOf none RTMA_REMOTE_SERVER "RTMA" "conus" "temp" (-1) "001-003"]⟩ ∧
    toString ((hourOfDay nowH0 : Int) - 1) = "-1" :=
  ⟨by decide, by decide, by decide,
    ((getVariable_rtma_livehour initGlobals demoCat (fun _ => true) nowH0 "temp" "conus"
        ⟨[], []⟩
        [dirTimeOf "RTMA" nowH0 ++
          (rtmaDir "conus" ((hourOfDay nowH0 : Int) - 1) ++ ndfdVarFile "temp")]
        ⟨[localDirOf "RTMA" "conus" (dirTimeOf "RTMA" nowH0) (-1) "001-003",
          dirTimeOf "RTMA" nowH0],
          [dirTimeOf "RTMA" nowH0 ++
            (rtmaDir "conus" ((hourOfDay nowH0 : Int) - 1) ++ ndfdVarFile "temp")]⟩
        [fetchUrlOf none RTMA_REMOTE_SERVER "RTMA" "conus" "temp" (-1) "001-003"]
        (by decide)).2 (by decide)).1⟩

theorem dictGet_mem {α : Type} {k : String} {v : α} :
    ∀ {l : List (String × α)}, dictGet k l = some v → (k, v) ∈ l := by
  intro l
  induction l with
  | nil => intro h; cases h
  | cons pv rest ih =>
    obtain ⟨a, w⟩ := pv
    intro h
    simp only [dictGet] at h
    split at h
    · rename_i heq
      rw [heq, Option.some.inj h]
      exact List.mem_cons_self _ _
    · exact List.mem_cons_of_mem _ (ih h)

theorem loopMin_le_init (d : Centroid → ℚ) :
    ∀ (l : List (String × Centroid)) (m : ℚ), loopMin d m l ≤ m := by
  intro l
  induction l with
  | nil => intro m; exact le_refl m
  | cons pc rest ih =>
    obtain ⟨a, c⟩ := pc
    intro m
    by_cases hexc : excludedGrid a = true
    · simpa [loopMin, hexc] using ih m
    · have hexc' : excludedGrid a = false := by simpa using hexc
      calc loopMin d m ((a, c) :: rest) = loopMin d (min m (d c)) rest := by
            simp [loopMin, hexc']
        _ ≤ min m (d c) := ih _
        _ ≤ m := min_le_left _ _

theorem loopMin_le_mem (d : Centroid → ℚ) :
    ∀ (l : List (String × Centroid)) (m : ℚ), ∀ pv ∈ l,
      excludedGrid pv.1 = false → loopMin d m l ≤ d pv.2 := by
  intro l
  induction l with
  | nil =>
    intro m pv hpv
    exact absurd hpv (List.not_mem_nil pv)
  | cons pc rest ih =>
    obtain ⟨a, c⟩ := pc
    intro m pv hpv hexcpv
    rcases List.mem_cons.1 hpv with hhd | htl
    · subst hhd
      have hexc' : excludedGrid a = false := hexcpv
      calc loopMin d m ((a, c) :: rest) = loopMin d (min m (d c)) rest := by
            simp [loopMin, hexc']
        _ ≤ min m (d c) := loopMin_le_init d rest _
        _ ≤ d c := min_le_right _ _
    · by_cases hexc : excludedGrid a = true
      · simpa [loopMin, hexc] using ih m pv htl hexcpv
      · have hexc' : excludedGrid a = false := by simpa using hexc
        simpa [loopMin, hexc'] using ih (min m (d c)) pv htl hexcpv

theorem loopMin_nonneg (d : Centroid → ℚ) :
    ∀ (l : List (String × Centroid)) (m : ℚ), 0 ≤ m →
      (∀ pv ∈ l, excludedGrid pv.1 = false → 0 ≤ d pv.2) → 0 ≤ loopMin d m l := by
  intro l
  induction l with
  | nil => intro m h0 _; exact h0
  | cons pc rest ih =>
    obtain ⟨a, c⟩ := pc
    intro m h0 hall
    by_cases hexc : excludedGrid a = true
    · simpa [loopMin, hexc] using
        ih m h0 (fun pv hpv he => hall pv (List.mem_cons_of_mem _ hpv) he)
    · have hexc' : excludedGrid a = false := by simpa using hexc
      have hc : 0 ≤ d c := hall (a, c) (List.mem_cons_self _ _) hexc'
      have : 0 ≤ min m (d c) := le_min h0 hc
      simpa [loopMin, hexc'] using
        ih (min m (d c)) this (fun pv hpv he => hall pv (List.mem_cons_of_mem _ hpv) he)

theorem firstAtMin_mem (d : Centroid → ℚ) (q : ℚ) :
    ∀ {l : List (String × Centroid)} {r : String}, firstAtMin d q l = some r →
      ∃ c, (r, c) ∈ l ∧ excludedGrid r = false ∧ d c = q := by
  intro l
  induction l with
  | nil => intro r h; cases h
  | cons pc rest ih =>
    obtain ⟨a, c⟩ := pc
    intro r h
    simp only [firstAtMin] at h
    split at h
    · rename_i hand
      rw [← Option.some.inj h]
      exact ⟨c, List.mem_cons_self _ _, hand.1, hand.2⟩
    · obtain ⟨c', hmem, hex, hd⟩ := ih h
      exact ⟨c', List.mem_cons_of_mem _ hmem, hex, hd⟩

/-- The decisive characterisation of the selection loop: if no strict
improvement over the seed exists the seed wins (ties included); otherwise the
winner is the first non-excluded tile in catalog order attaining the overall
minimum. -/
theorem smallestLoop_char (d : Centroid → ℚ) :
    ∀ (l : List (String × Centroid)) (s : String) (m : ℚ),
      (loopMin d m l = m → smallestLoop d l s m = s) ∧
      (loopMin d m l ≠ m → firstAtMin d (loopMin d m l) l = some (smallestLoop d l s m)) := by
  intro l
  induction l with
  | nil =>
    intro s m
    exact ⟨fun _ => rfl, fun h => absurd rfl h⟩
  | cons pc rest ih =>
    obtain ⟨a, c⟩ := pc
    intro s m
    by_cases hexc : excludedGrid a = true
    · have hMr : loopMin d m ((a, c) :: rest) = loopMin d m rest := by
        simp [loopMin, hexc]
      have hsl : smallestLoop d ((a, c) :: rest) s m = smallestLoop d rest s m := by
        simp [smallestLoop, hexc]
      constructor
      · intro hM
        rw [hMr] at hM
        rw [hsl]
        exact (ih s m).1 hM
      · intro hM
        rw [hMr] at hM ⊢
        rw [hsl]
        simp only [firstAtMin]
        rw [if_neg (by simp [hexc])]
        exact (ih s m).2 hM
    · have hexc' : excludedGrid a = false := by simpa using hexc
      by_cases hlt : d c < m
      · have hmin : min m (d c) = d c := min_eq_right (le_of_lt hlt)
        have hMr : loopMin d m ((a, c) :: rest) = loopMin d (d c) rest := by
          simp [loopMin, hexc', hmin]
        have hsl : smallestLoop d ((a, c) :: rest) s m = smallestLoop d rest a (d c) := by
          simp [smallestLoop, hexc', hlt]
        have hMle : loopMin d (d c) rest ≤ d c := loopMin_le_init d rest _
        constructor
        · intro hM
          exfalso
          rw [hMr] at hM
          rw [hM] at hMle
          exact absurd hlt (not_lt.2 hMle)
        · intro _
          rw [hMr, hsl]
          by_cases hM2 : loopMin d (d c) rest = d c
          · have hres : smallestLoop d rest a (d c) = a := (ih a (d c)).1 hM2
            rw [hres, hM2]
            simp [firstAtMin, hexc']
          · have hrec := (ih a (d c)).2 hM2
            simp only [firstAtMin]
            rw [if_neg (fun hand => hM2 hand.2.symm)]
            exact hrec
      · have hge : m ≤ d c := not_lt.1 hlt
        have hmin : min m (d c) = m := min_eq_left hge
        have hMr : loopMin d m ((a, c) :: rest) = loopMin d m rest := by
          simp [loopMin, hexc', hmin]
        have hsl : smallestLoop d ((a, c) :: rest) s m = smallestLoop d rest s m := by
          simp [smallestLoop, hexc', hlt]
        constructor
        · intro hM
          rw [hMr] at hM
          rw [hsl]
          exact (ih s m).1 hM
        · intro hM
          rw [hMr] at hM ⊢
          rw [hsl]
          have hMlem : loopMin d m rest ≤ m := loopMin_le_init d rest m
          have hne : d c ≠ loopMin d m rest := by
            intro he
            exact hM (le_antisymm hMlem (he ▸ hge))
          simp only [firstAtMin]
          rw [if_neg (fun hand => hne hand.2)]
          exact (ih s m).2 hM

theorem firstAtMin_zero_unique (d : Centroid → ℚ) :
    ∀ (l : List (String × Centroid)) (t : String) (ct : Centroid), (t, ct) ∈ l →
      excludedGrid t = false → d ct = 0 →
      (∀ pv ∈ l, excludedGrid pv.1 = false → pv ≠ (t, ct) → 0 < d pv.2) →
      firstAtMin d 0 l = some t := by
  intro l
  induction l with
  | nil =>
    intro t ct hmem
    exact absurd hmem (List.not_mem_nil _)
  | cons pc rest ih =>
    obtain ⟨a, c⟩ := pc
    intro t ct hmem hexct h0 hpos
    by_cases hhd : (a, c) = (t, ct)
    · have ha : a = t := congrArg Prod.fst hhd
      have hc : c = ct := congrArg Prod.snd hhd
      simp only [firstAtMin]
      rw [if_pos ⟨by rw [ha]; exact hexct, by rw [hc]; exact h0⟩, ha]
    · have hmem' : (t, ct) ∈ rest := by
        rcases List.mem_cons.1 hmem with h | h
        · exact absurd h.symm hhd
        · exact h
      have hcond : ¬ (excludedGrid a = false ∧ d c = 0) := by
        rintro ⟨he, hz⟩
        have := hpos (a, c) (List.mem_cons_self _ _) he hhd
        rw [hz] at this
        exact lt_irrefl 0 this
      simp only [firstAtMin]
      rw [if_neg hcond]
      exact ih t ct hmem' hexct h0
        (fun pv hpv he hne => hpos pv (List.mem_cons_of_mem _ hpv) he hne)

/-- C5 (amended): see `smallestGridClaim`. -/
theorem getSmallestGrid_spec (grids : List (String × Centroid)) (d : Centroid → ℚ)
    (c0 : Centroid) (hneast : dictGet "neast" grids = some c0) :
    smallestGridClaim grids d c0 := by
  have hmem0 : ("neast", c0) ∈ grids := dictGet_mem hneast
  have hexc0 : excludedGrid "neast" = false := by decide
  have hok : getSmallestGrid grids d = .ok (smallestLoop d grids "neast" (d c0)) := by
    unfold getSmallestGrid
    rw [hneast]
  by_cases hM : loopMin d (d c0) grids = d c0
  · have hr : smallestLoop d grids "neast" (d c0) = "neast" :=
      (smallestLoop_char d grids "neast" (d c0)).1 hM
    refine ⟨"neast", c0, by rw [hok, hr], hexc0, hmem0, by rw [hM], ?_, fun _ => rfl,
      fun h => absurd hM h, ?_⟩
    · intro pv hpv he
      calc d c0 = loopMin d (d c0) grids := hM.symm
        _ ≤ d pv.2 := loopMin_le_mem d grids (d c0) pv hpv he
    · intro t ct hmemt hexct h0 hpos
      by_cases hsame : ("neast", c0) = (t, ct)
      · exact congrArg Prod.fst hsame
      · exfalso
        have hpos0 : 0 < d c0 := hpos ("neast", c0) hmem0 hexc0 hsame
        have hle : loopMin d (d c0) grids ≤ d ct := loopMin_le_mem d grids (d c0) _ hmemt hexct
        rw [hM, h0] at hle
        exact absurd hpos0 (not_lt.2 hle)
  · have hfirst := (smallestLoop_char d grids "neast" (d c0)).2 hM
    obtain ⟨cr, hmemr, hexcr, hdr⟩ := firstAtMin_mem d _ hfirst
    refine ⟨smallestLoop d grids "neast" (d c0), cr, hok, hexcr, hmemr, hdr, ?_,
      fun h => absurd h hM, fun _ => hfirst, ?_⟩
    · intro pv hpv he
      rw [hdr]
      exact loopMin_le_mem d grids (d c0) pv hpv he
    · intro t ct hmemt hexct h0 hpos
      have hd0 : 0 ≤ d c0 := by
        by_cases hsame : ("neast", c0) = (t, ct)
        · have : c0 = ct := congrArg Prod.snd hsame
          rw [this, h0]
        · exact le_of_lt (hpos ("neast", c0) hmem0 hexc0 hsame)
      have hall0 : ∀ pv ∈ grids, excludedGrid pv.1 = false → 0 ≤ d pv.2 := by
        intro pv hpv he
        by_cases hsame : pv = (t, ct)
        · rw [hsame]
          exact le_of_eq h0.symm
        · exact le_of_lt (hpos pv hpv he hsame)
      have hMzero : loopMin d (d c0) grids = 0 := by
        have hle : loopMin d (d c0) grids ≤ 0 := by
          have := loopMin_le_mem d grids (d c0) (t, ct) hmemt hexct
          rw [h0] at this
          exact this
        exact le_antisymm hle (loopMin_nonneg d grids (d c0) hd0 hall0)
      have huniq := firstAtMin_zero_unique d grids t ct hmemt hexct h0 hpos
      rw [hMzero] at hfirst
      rw [huniq] at hfirst
      exact (Option.some.inj hfirst).symm

/-- Counterexample to C5 as stated: with every centroid at distance 1 from the
query, the first (non-excluded) tile encountered with the minimum distance is
`alaska`, yet `getSmallestGrid` returns `neast` — the seed wins ties it
attains, so "the first tile encountered with the minimum distance wins" fails
on the code. -/
theorem getSmallestGrid_tie_seed_wins :
    getSmallestGrid tieGrids (fun _ => 1) = .ok "neast" ∧
    firstAtMin (fun _ => 1) (loopMin (fun _ => 1) 1 tieGrids) tieGrids = some "alaska" ∧
    ("neast" : String) ≠ "alaska" := by
  exact ⟨by decide, by decide, by decide⟩

/-- Witness for C5 (amended), at the catalog `demoGrids` with the distance
function reading the first centroid coordinate: the hypotheses hold and the
non-excluded nearest tile `pacsw` is selected. -/
theorem getSmallestGrid_spec_witness :
    dictGet "neast" demoGrids = some (3, 3) ∧
    smallestGridClaim demoGrids (fun c => c.1) (3, 3) ∧
    getSmallestGrid demoGrids (fun c => c.1) = .ok "pacsw" :=
  ⟨by decide, getSmallestGrid_spec demoGrids (fun c => c.1) (3, 3) (by decide), by decide⟩

theorem foldl_min_spec : ∀ (xs : List ℚ) (x : ℚ),
    xs.foldl min x ∈ x :: xs ∧ ∀ y ∈ x :: xs, xs.foldl min x ≤ y := by
  intro xs
  induction xs with
  | nil =>
    intro x
    refine ⟨List.mem_cons_self _ _, ?_⟩
    intro y hy
    rcases List.mem_cons.1 hy with h | h
    · rw [h]
      exact le_refl x
    · exact absurd h (List.not_mem_nil y)
  | cons z zs ih =>
    intro x
    rw [List.foldl_cons]
    constructor
    · rcases List.mem_cons.1 (ih (min x z)).1 with h | h
      · rw [h]
        rcases min_choice x z with hx | hz
        · rw [hx]
          exact List.mem_cons_self _ _
        · rw [hz]
          exact List.mem_cons_of_mem _ (List.mem_cons_self _ _)
      · exact List.mem_cons_of_mem _ (List.mem_cons_of_mem _ h)
    · intro y hy
      rcases List.mem_cons.1 hy with h | h
      · rw [h]
        calc zs.foldl min (min x z) ≤ min x z := (ih _).2 _ (List.mem_cons_self _ _)
          _ ≤ x := min_le_left _ _
      · rcases List.mem_cons.1 h with h' | h'
        · rw [h']
          calc zs.foldl min (min x z) ≤ min x z := (ih _).2 _ (List.mem_cons_self _ _)
            _ ≤ z := min_le_right _ _
        · exact (ih _).2 y (List.mem_cons_of_mem _ h')

theorem listMinQ_spec {l : List ℚ} {m : ℚ} (h : listMinQ l = some m) :
    m ∈ l ∧ ∀ x ∈ l, m ≤ x := by
  cases l with
  | nil => cases h
  | cons x xs =>
    have hm : xs.foldl min x = m := Option.some.inj h
    rw [← hm]
    exact foldl_min_spec xs x

theorem listMinQ_eq_none {l : List ℚ} (h : listMinQ l = none) : l = [] := by
  cases l with
  | nil => rfl
  | cons x xs => cases h

theorem mem_iff_index {α : Type} (l : List α) (v : α) :
    v ∈ l ↔ ∃ j : Nat, l[j]? = some v := by
  induction l with
  | nil => simp
  | cons x xs ih =>
    constructor
    · intro h
      rcases List.mem_cons.1 h with h' | h'
      · exact ⟨0, by simp [h']⟩
      · obtain ⟨j, hj⟩ := ih.1 h'
        exact ⟨j + 1, by simpa using hj⟩
    · rintro ⟨j, hj⟩
      cases j with
      | zero =>
        simp only [List.getElem?_cons_zero] at hj
        rw [Option.some.inj hj]
        exact List.mem_cons_self _ _
      | succ j =>
        simp only [List.getElem?_cons_succ] at hj
        exact List.mem_cons_of_mem _ (ih.2 ⟨j, hj⟩)

theorem mem_flatten_iff_cell (g : List (List ℚ)) (v : ℚ) :
    v ∈ g.flatten ↔ ∃ i j, cell g i j = some v := by
  induction g with
  | nil => simp [cell]
  | cons row rows ih =>
    rw [List.flatten_cons, List.mem_append]
    constructor
    · intro h
      rcases h with h | h
      · obtain ⟨j, hj⟩ := (mem_iff_index row v).1 h
        exact ⟨0, j, by simpa [cell] using hj⟩
      · obtain ⟨i, j, hij⟩ := ih.1 h
        refine ⟨i + 1, j, ?_⟩
        simpa [cell] using hij
    · rintro ⟨i, j, hij⟩
      cases i with
      | zero =>
        left
        simp only [cell, List.getElem?_cons_zero, Option.bind] at hij
        exact (mem_iff_index row v).2 ⟨j, hij⟩
      | succ i =>
        right
        refine ih.2 ⟨i, j, ?_⟩
        simpa [cell] using hij

theorem whereRow_mem (m : ℚ) (i : Nat) :
    ∀ (row : List ℚ) (j0 i' j' : Nat),
      (i', j') ∈ whereRow m i j0 row ↔
        i' = i ∧ ∃ k, j' = j0 + k ∧ row[k]? = some m := by
  intro row
  induction row with
  | nil =>
    intro j0 i' j'
    simp [whereRow]
  | cons v rest ih =>
    intro j0 i' j'
    simp only [whereRow, List.mem_append]
    constructor
    · intro h
      rcases h with h | h
      · split at h
        · rename_i hv
          simp only [List.mem_singleton, Prod.mk.injEq] at h
          exact ⟨h.1, 0, by omega, by simp [← hv]⟩
        · simp at h
      · obtain ⟨hi, k, hk, hval⟩ := (ih (j0 + 1) i' j').1 h
        exact ⟨hi, k + 1, by omega, by simpa using hval⟩
    · rintro ⟨hi, k, hk, hval⟩
      cases k with
      | zero =>
        left
        simp only [List.getElem?_cons_zero] at hval
        rw [Option.some.inj hval]
        simp [hi, (by omega : j' = j0)]
      | succ k =>
        right
        refine (ih (j0 + 1) i' j').2 ⟨hi, k, by omega, ?_⟩
        simpa using hval

theorem whereGrid_mem (m : ℚ) :
    ∀ (g : List (List ℚ)) (i0 i' j' : Nat),
      (i', j') ∈ whereGrid m i0 g ↔
        ∃ k, i' = i0 + k ∧ cell g k j' = some m := by
  intro g
  induction g with
  | nil =>
    intro i0 i' j'
    simp [whereGrid, cell]
  | cons row rows ih =>
    intro i0 i' j'
    simp only [whereGrid, List.mem_append]
    constructor
    · intro h
      rcases h with h | h
      · obtain ⟨hi, k, hk, hval⟩ := (whereRow_mem m i0 row 0 i' j').1 h
        refine ⟨0, by omega, ?_⟩
        simp only [cell, List.getElem?_cons_zero, Option.bind]
        rw [(by omega : j' = k)]
        exact hval
      · obtain ⟨k, hk, hval⟩ := (ih (i0 + 1) i' j').1 h
        exact ⟨k + 1, by omega, by simpa [cell] using hval⟩
    · rintro ⟨k, hk, hval⟩
      cases k with
      | zero =>
        left
        refine (whereRow_mem m i0 row 0 i' j').2 ⟨by omega, j', by omega, ?_⟩
        simpa [cell] using hval
      | succ k =>
        right
        refine (ih (i0 + 1) i' j').2 ⟨k, by omega, ?_⟩
        simpa [cell] using hval

/-- C6: for a non-empty grid (with the coordinate arrays combined cellwise
into the distance grid), `getNearestXrGridPoint` returns exactly the indices
at which the squared planar distance attains its global minimum — every tied
index appears, and nothing else. -/
theorem getNearestXrGridPoint_spec (lats lons : List (List ℚ)) (lat lon : ℚ)
    (i j : Nat)
    (_hshape : List.map List.length lats = List.map List.length lons)
    (hne : (distGrid lats lons lat lon).flatten ≠ []) :
    (i, j) ∈ getNearestXrGridPoint lats lons lat lon ↔
      ∃ v, cell (distGrid lats lons lat lon) i j = some v ∧
        ∀ i' j' w, cell (distGrid lats lons lat lon) i' j' = some w → v ≤ w := by
  cases hmin : listMinQ (distGrid lats lons lat lon).flatten with
  | none => exact absurd (listMinQ_eq_none hmin) hne
  | some m =>
    have hspec := listMinQ_spec hmin
    unfold getNearestXrGridPoint
    rw [hmin]
    constructor
    · intro hmem
      obtain ⟨k, hk, hval⟩ := (whereGrid_mem m _ 0 i j).1 hmem
      have hik : i = k := by omega
      refine ⟨m, by rw [hik]; exact hval, ?_⟩
      intro i' j' w hw
      exact hspec.2 w ((mem_flatten_iff_cell _ w).2 ⟨i', j', hw⟩)
    · rintro ⟨v, hcell, hminv⟩
      obtain ⟨i0, j0, hc0⟩ := (mem_flatten_iff_cell _ m).1 hspec.1
      have hvm : v ≤ m := hminv i0 j0 m hc0
      have hmv : m ≤ v := hspec.2 v ((mem_flatten_iff_cell _ v).2 ⟨i, j, hcell⟩)
      have hveq : v = m := le_antisymm hvm hmv
      refine (whereGrid_mem m _ 0 i j).2 ⟨i, by omega, ?_⟩
      rw [← hveq]
      exact hcell

/-- Witness for C6, at the claim's own example: the 2×2 grid with coordinates
{(0,0), (0,1), (1,0), (1,1)} queried at (0.1, 0.1) has its unique nearest
cell at index (0,0), and that is exactly what the function returns. -/
theorem getNearestXrGridPoint_spec_witness :
    (List.map List.length lats2 = List.map List.length lons2 ∧
      (distGrid lats2 lons2 (1/10) (1/10)).flatten ≠ []) ∧
    ((0, 0) ∈ getNearestXrGridPoint lats2 lons2 (1/10) (1/10) ↔
      ∃ v, cell (distGrid lats2 lons2 (1/10) (1/10)) 0 0 = some v ∧
        ∀ i' j' w, cell (distGrid lats2 lons2 (1/10) (1/10)) i' j' = some w → v ≤ w) ∧
    getNearestXrGridPoint lats2 lons2 (1/10) (1/10) = [(0, 0)] :=
  ⟨⟨by decide, by with_unfolding_all decide⟩,
    getNearestXrGridPoint_spec lats2 lons2 (1/10) (1/10) 0 0 (by decide)
      (by with_unfolding_all decide),
    by with_unfolding_all decide⟩

set_option maxRecDepth 8000 in
set_option maxHeartbeats 1000000 in
/-- C7: the claim asserts the returned series is restricted to
`[minTime, maxTime]` on the `timeStep` lattice.  Evaluating the code on a
successful call whose NDFD dataset carries a valid time past `maxTime` shows
the restriction is not applied: with `minTime = 100h`, `maxTime = 101h`,
`timeStep = 1`, the source's own `validTimes` enumeration is `[100h, 101h]`
— validation passes and the window is computed correctly — yet the returned
series for the variable contains the key `200h > maxTime`, because
`validTimes` is never used after being built. -/
theorem getLocationData_window_not_applied :
    (∃ fs', getLocationData initGlobals demoCat (fun _ => true) now820
        (fun _ => ⟨100 * HOUR_U, [("t2m", 5)]⟩)
        (fun _ => ⟨[100 * HOUR_U, 200 * HOUR_U], [("t2m", [5, 7])]⟩)
        "temp" "conus" 1 (some (100 * HOUR_U)) (some (101 * HOUR_U)) ⟨[], []⟩ =
      .ok ([("t2m", [(100 * HOUR_U, 5), (200 * HOUR_U, 7)])], fs')) ∧
    101 * HOUR_U < 200 * HOUR_U ∧
    buildValidTimes (getLatestForecastTime now820) (some (100 * HOUR_U))
        (some (101 * HOUR_U))
        ((List.range 250).filter (fun h => decide (h % (1 : Int).toNat = 0))) =
      [100 * HOUR_U, 101 * HOUR_U] :=
  ⟨⟨⟨[localDirOf "NDFD" "conus" (dirTimeOf "NDFD" now820) 3 "001-003",
      dirTimeOf "NDFD" now820,
      localDirOf "RTMA" "conus" (dirTimeOf "RTMA" now820) 3 "001-003",
      dirTimeOf "RTMA" now820],
      [localVarOf "NDFD" "conus" "temp" (dirTimeOf "NDFD" now820) 3 "001-003",
        localVarOf "RTMA" "conus" "temp" (dirTimeOf "RTMA" now820) 3 "001-003"]⟩,
    by decide⟩,
    by decide, by decide⟩

end Pyndfd
